import Mathlib

/-!
# Verification of the vibe_dialog reversible-command engine

A shallow embedding of `vibe_dialog/backend/models.py`, `services.py` and
`commands.py`, together with proofs settling the frozen claims about the
document/annot/citation data model, the document and search services, and
the `CommandHistory` undo/redo state machine.

Modelling conventions:
* Python `str` is modelled as `List Char` (`Str`); slicing and
  case-insensitive matching are by character, as in CPython for the inputs
  considered here.
* `datetime.now()` is an ambient clock: world-level operations draw a fresh
  `Time` (a natural number) from `World.clock`; the pure entity helpers of
  `models.py` take the current time as an explicit `now` argument.
* `uuid.uuid4()` is a fresh-identifier supply: `World.uuidCtr` is threaded
  through every operation that draws an id.  Identifiers produced by the
  supply are modelled as naturals (`Uuid`).
* `hashlib.md5(...).hexdigest()[:16]` (only used for citation ids) is
  modelled by an abstract deterministic digest `md5_16`; the development
  relies only on the digest being a function of its input, never on
  collision behaviour.
* Python `dict` (insertion ordered) is an association list with
  `assocSet` / `assocGet` / `assocDel` mirroring `d[k] = v`, `d.get(k)`
  and `del d[k]`.
* Python `set` (`Document.tags`) is a `Finset`.
* Float relevance scores (only the exact constants `1.0` and `0.8` occur)
  are modelled as rationals.
* The filesystem is a path-to-content map in the world; `World.writeFail`
  is the I/O oracle deciding whether a file write raises.  A raised Python
  exception is the `ExecResult.exn` outcome.
* The `Annotation` class is named `Annot` here (with `add_annot` etc. for
  its helpers); all other source names are kept.
-/

namespace VibeDialog

/-- Python `str`, as a character list. -/
abbrev Str := List Char

/-- Wall-clock instants (`datetime.now()` values). -/
abbrev Time := Nat

/-- Identifiers drawn from the `uuid.uuid4()` supply. -/
abbrev Uuid := Nat

/-- Convert a Lean string literal to the `Str` model. -/
def str (s : String) : Str := s.data

/-- `d.get(k)` on an insertion-ordered Python dict. -/
def assocGet {κ α : Type} [DecidableEq κ] : List (κ × α) → κ → Option α
  | [], _ => none
  | (k', v) :: rest, k => if k' = k then some v else assocGet rest k

/-- `d[k] = v` on an insertion-ordered Python dict: replaces in place if the
key is present (keeping its position), otherwise appends. -/
def assocSet {κ α : Type} [DecidableEq κ] : List (κ × α) → κ → α → List (κ × α)
  | [], k, v => [(k, v)]
  | (k', v') :: rest, k, v =>
      if k' = k then (k, v) :: rest else (k', v') :: assocSet rest k v

/-- `del d[k]`: removes the first entry with the given key. -/
def assocDel {κ α : Type} [DecidableEq κ] : List (κ × α) → κ → List (κ × α)
  | [], _ => []
  | (k', v') :: rest, k => if k' = k then rest else (k', v') :: assocDel rest k

/-- `MessageRole` enum. -/
inductive MessageRole where
  | SYSTEM | USER | ASSISTANT
deriving DecidableEq

/-- `SearchProvider` enum. -/
inductive SearchProvider where
  | LOCAL | SEMANTIC | HYBRID | EXTERNAL
deriving DecidableEq

/-- `AnnotationType` enum. -/
inductive AnnotType where
  | COMMENT | HIGHLIGHT | CITATION | REFERENCE | NOTE
deriving DecidableEq

/-- A value of an `Annotation.position` dict (`Union[int, str]`). -/
inductive PosVal where
  | int (i : Int)
  | strv (s : Str)
deriving DecidableEq

/-- `Citation` dataclass (`models.py`).  The `section` field is written
`«section»` because `section` is a Lean keyword. -/
structure Citation where
  id : Str
  text : Str
  source : Str
  page : Option Int := none
  «section» : Option Str := none
  url : Option Str := none
  created_at : Time := 0
deriving DecidableEq

/-- `Annotation` dataclass (`models.py`), named `Annot` here. -/
structure Annot where
  id : Uuid
  type : AnnotType
  text : Str
  position : List (Str × PosVal)
  document_id : Uuid
  user_id : Option Uuid := none
  created_at : Time := 0
  updated_at : Time := 0
  color : Option Str := none
  citations : List Citation := []
deriving DecidableEq

/-- `Message` dataclass (`models.py`). -/
structure Message where
  role : MessageRole
  content : Str
  timestamp : Time := 0
  citations : List Citation := []
  referenced_documents : List Uuid := []
  metadata : List (Str × Str) := []
deriving DecidableEq

/-- `SearchResult` dataclass (`models.py`).  The `position` dict
`{"start": a, "end": b}` is modelled as a pair. -/
structure SearchResult where
  document_id : Uuid
  relevance_score : Rat
  matched_text : Str
  context : Str
  page_number : Option Nat := none
  position : Option (Nat × Nat) := none
deriving DecidableEq

/-- `Document` dataclass (`models.py`). -/
structure Document where
  id : Uuid
  title : Str
  content : Str
  file_path : Option Str := none
  file_name : Option Str := none
  file_type : Option Str := none
  file_size : Option Nat := none
  metadata : List (Str × Str) := []
  annotations : List Annot := []
  citations : List Citation := []
  comments : List Str := []
  tags : Finset Str := ∅
  created_at : Time := 0
  updated_at : Time := 0
  embedding : Option (List Rat) := none
  is_indexed : Bool := false
deriving DecidableEq

/-- `UserProfile` dataclass (`models.py`). -/
structure UserProfile where
  id : Uuid
  name : Str
  email : Str
  ui_preferences : List (Str × Str) := []
  role : Option Str := none
  employer : Option Str := none
  preferred_jurisdiction : Option Str := none
  search_preferences : List (Str × Str) := []
  recently_viewed_documents : List Uuid := []
deriving DecidableEq

/-- `DialogueContext` dataclass (`models.py`). -/
structure DialogueContext where
  id : Uuid
  messages : List Message := []
  documents : List (Uuid × Document) := []
  user_profile : Option UserProfile := none
  session_start : Time := 0
  last_activity : Time := 0
  active_search_results : List (Str × List SearchResult) := []
  active_document_id : Option Uuid := none
deriving DecidableEq

/-! ## Entity mutation helpers (`models.py`) -/

/-- `Document.add_annotation`. -/
def Document.add_annot (now : Time) (d : Document) (a : Annot) : Document :=
  { d with annotations := d.annotations ++ [a], updated_at := now }

/-- The loop of `Document.remove_annotation`: pop the first annot with the
given id, or `none` if there is no match. -/
def removeFirstAnnot : List Annot → Uuid → Option (List Annot)
  | [], _ => none
  | a :: rest, aid =>
      if a.id = aid then some rest
      else (removeFirstAnnot rest aid).map (a :: ·)

/-- `Document.remove_annotation`. -/
def Document.remove_annot (now : Time) (d : Document) (aid : Uuid) :
    Bool × Document :=
  match removeFirstAnnot d.annotations aid with
  | some l => (true, { d with annotations := l, updated_at := now })
  | none => (false, d)

/-- `Document.add_citation`. -/
def Document.add_citation (now : Time) (d : Document) (c : Citation) : Document :=
  { d with citations := d.citations ++ [c], updated_at := now }

/-- The loop of `Document.remove_citation`. -/
def removeFirstCitation : List Citation → Str → Option (List Citation)
  | [], _ => none
  | c :: rest, cid =>
      if c.id = cid then some rest
      else (removeFirstCitation rest cid).map (c :: ·)

/-- `Document.remove_citation`. -/
def Document.remove_citation (now : Time) (d : Document) (cid : Str) :
    Bool × Document :=
  match removeFirstCitation d.citations cid with
  | some l => (true, { d with citations := l, updated_at := now })
  | none => (false, d)

/-- `Document.add_tag`. -/
def Document.add_tag (now : Time) (d : Document) (tag : Str) : Document :=
  { d with tags := insert tag d.tags, updated_at := now }

/-- `Document.remove_tag`. -/
def Document.remove_tag (now : Time) (d : Document) (tag : Str) :
    Bool × Document :=
  if tag ∈ d.tags then
    (true, { d with tags := d.tags.erase tag, updated_at := now })
  else
    (false, d)

/-- `DialogueContext.add_document`. -/
def DialogueContext.add_document (now : Time) (c : DialogueContext)
    (d : Document) : DialogueContext :=
  { c with documents := assocSet c.documents d.id d, last_activity := now }

/-- `DialogueContext.get_document`. -/
def DialogueContext.get_document (c : DialogueContext) (did : Uuid) :
    Option Document :=
  assocGet c.documents did

/-- `DialogueContext.remove_document`. -/
def DialogueContext.remove_document (now : Time) (c : DialogueContext)
    (did : Uuid) : Bool × DialogueContext :=
  if (assocGet c.documents did).isSome then
    (true, { c with documents := assocDel c.documents did, last_activity := now })
  else
    (false, c)

/-- `DialogueContext.search_documents` (stores results for a query). -/
def DialogueContext.search_documents (now : Time) (c : DialogueContext)
    (query : Str) (results : List SearchResult) : DialogueContext :=
  { c with active_search_results := assocSet c.active_search_results query results,
           last_activity := now }

/-- `DialogueContext.clear_search_results`. -/
def DialogueContext.clear_search_results (now : Time) (c : DialogueContext)
    (query : Option Str) : DialogueContext :=
  match query with
  | none => { c with active_search_results := [], last_activity := now }
  | some q =>
      if (assocGet c.active_search_results q).isSome then
        { c with active_search_results := assocDel c.active_search_results q,
                 last_activity := now }
      else
        { c with last_activity := now }

/-! ## Ambient world: `DialogueService.active_contexts`, filesystem, clocks

`World` bundles the process-global state the services operate on: the
dialogue service's `active_contexts` registry, the filesystem reachable
through `os` / file saves, and the uuid/clock supplies.  `writeFail` is the
I/O oracle: when it is `true`, any attempt to write a file raises. -/

structure World where
  active_contexts : List (Uuid × DialogueContext) := []
  fs : List (Str × Str) := []
  uuidCtr : Nat := 0
  clock : Time := 0
  writeFail : Bool := false
deriving DecidableEq

/-- Draw a `datetime.now()` value. -/
def World.tick (w : World) : Time × World :=
  (w.clock, { w with clock := w.clock + 1 })

/-- Draw a `uuid.uuid4()` value. -/
def World.freshUuid (w : World) : Uuid × World :=
  (w.uuidCtr, { w with uuidCtr := w.uuidCtr + 1 })

/-- `DialogueService.get_context`. -/
def World.get_context (w : World) (cid : Uuid) : Option DialogueContext :=
  assocGet w.active_contexts cid

/-- Store a mutated context back; in Python this is implicit (the context
object in `active_contexts` is mutated in place). -/
def World.put_context (w : World) (cid : Uuid) (c : DialogueContext) : World :=
  { w with active_contexts := assocSet w.active_contexts cid c }

/-- Outcome of running a Python method that may raise: `ok b` is a normal
`return b`; `exn` is a propagating exception. -/
inductive ExecResult where
  | ok (b : Bool)
  | exn
deriving DecidableEq

/-- Truthiness of an `Optional[str]` (`None` and `""` are falsy). -/
def optStrTruthy : Option Str → Bool
  | some s => !s.isEmpty
  | none => false

/-- The `file` argument of create/update: `None`, a file-like object with
the given byte content, a path string, or some other (truthy, unsavable)
value. -/
inductive FileArg where
  | noArg
  | payload (content : Str)
  | pathStr (p : Str)
  | other
deriving DecidableEq

/-- Python truthiness of the `file` argument. -/
def FileArg.truthy : FileArg → Bool
  | .noArg => false
  | .payload _ => true
  | .pathStr p => !p.isEmpty
  | .other => true

/-- `werkzeug.utils.secure_filename`: an external sanitizer; modelled as the
identity, since only its determinism is relevant to the claims. -/
def secure_filename (s : Str) : Str := s

/-- Decimal rendering of a uuid, used in stored filenames. -/
def uuidStr (n : Uuid) : Str := (Nat.repr n).data

/-- `str(UPLOAD_DIR / f"{doc_id}_{secure_name}")`. -/
def uploadPath (did : Uuid) (secure_name : Str) : Str :=
  str "uploads/" ++ uuidStr did ++ str "_" ++ secure_name

/-- The save ladder shared by `create_document` and `update_document`:
a file-like object is saved (write may raise), a path string naming an
existing file is `os.replace`d into place (may raise), anything else is
silently not saved and yields no size.  Returns the resulting
`file_size` and world, or the world at the point of the raise. -/
def savedFile (w : World) (file : FileArg) (file_path : Str) :
    Except World (Option Nat × World) :=
  match file with
  | FileArg.payload c =>
      if w.writeFail then .error w
      else .ok (some c.length, { w with fs := assocSet w.fs file_path c })
  | FileArg.pathStr p =>
      match assocGet w.fs p with
      | some c =>
          if w.writeFail then .error w
          else .ok (some c.length, { w with fs := assocSet (assocDel w.fs p) file_path c })
      | none => .ok (none, w)
  | _ => .ok (none, w)

/-! ## `DocumentService` (`services.py`) -/

/-- `DocumentService.create_document`.  On a write failure the exception
propagates before the `Document` is constructed. -/
def DocumentService.create_document (w : World) (title content : Str)
    (metadata : Option (List (Str × Str))) (file : FileArg)
    (file_name file_type : Option Str) (tags : Option (Finset Str)) :
    Except World (Document × World) :=
  let r0 := w.freshUuid
  let doc_id := r0.1
  let r1 := r0.2.tick
  let now := r1.1
  let w1 := r1.2
  if file.truthy && optStrTruthy file_name then
    let secure_name := secure_filename (file_name.getD [])
    let file_path := uploadPath doc_id secure_name
    match savedFile w1 file file_path with
    | .error w' => .error w'
    | .ok (file_size, w') =>
        .ok ({ id := doc_id, title := title, content := content,
               file_path := some file_path, file_name := file_name,
               file_type := file_type, file_size := file_size,
               metadata := metadata.getD [], tags := tags.getD ∅,
               created_at := now, updated_at := now }, w')
  else
    .ok ({ id := doc_id, title := title, content := content,
           file_path := none, file_name := file_name,
           file_type := file_type, file_size := none,
           metadata := metadata.getD [], tags := tags.getD ∅,
           created_at := now, updated_at := now }, w1)

/-- `os.remove(p)` guarded by `if p and os.path.exists(p)` — the shared
old-file cleanup step. -/
def removeIfExists (w : World) (p? : Option Str) : World :=
  match p? with
  | some p => if !p.isEmpty && (assocGet w.fs p).isSome then
                { w with fs := assocDel w.fs p }
              else w
  | none => w

/-- The three leading `if <arg> is not None` assignments of
`update_document` (title, content, tags). -/
def applyUpdates (document : Document) (title content : Option Str)
    (tags : Option (Finset Str)) : Document :=
  let d1 := match title with | some t => { document with title := t } | none => document
  let d2 := match content with | some c => { d1 with content := c } | none => d1
  match tags with | some ts => { d2 with tags := ts } | none => d2

/-- `DocumentService.update_document`.  Title/content/tags are assigned
before the file handling; on a write failure the exception propagates with
those assignments already applied (`.error` carries the partially updated
document).  When the `file` argument is truthy but neither file-like nor an
existing path, the source's local `file_size` is unbound, so the method
assigns `file_path`/`file_name`/`file_type` and then raises
`UnboundLocalError` at `document.file_size = file_size`. -/
def DocumentService.update_document (w : World) (document : Document)
    (title content : Option Str) (file : FileArg)
    (file_name file_type : Option Str) (tags : Option (Finset Str)) :
    Except (Document × World) (Document × World) :=
  let d3 := applyUpdates document title content tags
  if file.truthy && optStrTruthy file_name then
    let w1 := removeIfExists w d3.file_path
    let secure_name := secure_filename (file_name.getD [])
    let file_path := uploadPath d3.id secure_name
    match savedFile w1 file file_path with
    | .error w' => .error (d3, w')
    | .ok (none, w') =>
        .error ({ d3 with
                    file_path := some file_path, file_name := file_name,
                    file_type := file_type }, w')
    | .ok (some sz, w') =>
        let r := w'.tick
        .ok ({ d3 with
                 file_path := some file_path, file_name := file_name,
                 file_type := file_type, file_size := some sz,
                 updated_at := r.1 }, r.2)
  else
    let r := w.tick
    .ok ({ d3 with updated_at := r.1 }, r.2)

/-- `str(x)` for an `Optional[int]` inside the citation hash input. -/
def reprOptInt : Option Int → Str
  | none => str "None"
  | some i => (toString i).data

/-- `str(x)` for an `Optional[str]` inside the citation hash input. -/
def reprOptStr : Option Str → Str
  | none => str "None"
  | some s => s

/-- `hashlib.md5(s.encode()).hexdigest()[:16]`: an abstract deterministic
digest.  Only determinism (same input, same id) is relied upon. -/
def md5_16 (s : Str) : Str := s

/-- `DocumentService.create_citation`: the id is a content hash of the
`text|source|page|section|url` rendering. -/
def DocumentService.create_citation (w : World) (text source : Str)
    (page : Option Int) (sec url : Option Str) : Citation × World :=
  let hash_input := text ++ str "|" ++ source ++ str "|" ++ reprOptInt page
      ++ str "|" ++ reprOptStr sec ++ str "|" ++ reprOptStr url
  let r := w.tick
  ({ id := md5_16 hash_input, text := text, source := source, page := page,
     «section» := sec, url := url, created_at := r.1 }, r.2)

/-- `DocumentService.create_annotation`: the id is freshly random per call. -/
def DocumentService.create_annot (w : World) (document_id : Uuid)
    (ty : AnnotType) (text : Str) (position : List (Str × PosVal))
    (user_id : Option Uuid) (color : Option Str)
    (citations : Option (List Citation)) : Annot × World :=
  let r0 := w.freshUuid
  let r1 := r0.2.tick
  ({ id := r0.1, type := ty, text := text, position := position,
     document_id := document_id, user_id := user_id,
     created_at := r1.1, updated_at := r1.1, color := color,
     citations := citations.getD [] }, r1.2)

/-- `DocumentService.delete_file`: removes the backing file and clears the
four file fields; `false` (and no mutation) if no file is attached or the
path does not exist. -/
def DocumentService.delete_file (w : World) (d : Document) :
    Bool × Document × World :=
  match d.file_path with
  | some p =>
      if !p.isEmpty && (assocGet w.fs p).isSome then
        let r := w.tick
        (true,
         { d with file_path := none, file_name := none,
                  file_type := none, file_size := none, updated_at := r.1 },
         { r.2 with fs := assocDel r.2.fs p })
      else (false, d, w)
  | none => (false, d, w)

/-! ## `SearchService` (`services.py`) -/

/-- `s.lower()`. -/
def pyLower (s : Str) : Str := s.map Char.toLower

/-- `s.find(pat)`: the lowest index at which `pat` occurs in `s`, if any. -/
def pyFind (s pat : Str) : Option Nat :=
  (List.range (s.length + 1)).find? (fun i => pat.isPrefixOf (s.drop i))

/-- `pat in s` for Python strings. -/
def occursIn (pat s : Str) : Bool := (pyFind s pat).isSome

/-- One insertion step of the stable descending sort on relevance. -/
def insertDesc (r : SearchResult) : List SearchResult → List SearchResult
  | [] => [r]
  | x :: xs =>
      if x.relevance_score ≤ r.relevance_score then r :: x :: xs
      else x :: insertDesc r xs

/-- `results.sort(key=lambda x: x.relevance_score, reverse=True)`: Python's
sort is stable, so any stable descending sort computes the same list; this
is a stable insertion sort. -/
def sortDesc : List SearchResult → List SearchResult
  | [] => []
  | x :: xs => insertDesc x (sortDesc xs)

/-- One iteration of the `_local_search` loop: the results contributed by a
single document (a title hit, then a content hit).  `context_start` is
`max(0, position - 50)` (natural subtraction). -/
def localDocResults (query_lower query : Str) (doc_id : Uuid)
    (doc : Document) : List SearchResult :=
  (if occursIn query_lower (pyLower doc.title) then
    [{ document_id := doc_id, relevance_score := 1,
       matched_text := doc.title, context := doc.title }]
   else []) ++
  (match pyFind (pyLower doc.content) query_lower with
   | some position =>
      let context_start := position - 50
      let context_end := min doc.content.length (position + query.length + 50)
      let context0 := (doc.content.drop context_start).take (context_end - context_start)
      let context1 := if 0 < context_start then str "..." ++ context0 else context0
      let context2 := if context_end < doc.content.length then context1 ++ str "..."
                      else context1
      [{ document_id := doc_id, relevance_score := 0.8,
         matched_text := (doc.content.drop position).take query.length,
         context := context2,
         position := some (position, position + query.length) }]
   | none => [])

/-- `SearchService._local_search`. -/
def localSearch (query : Str) (documents : List (Uuid × Document))
    (max_results : Nat) : List SearchResult :=
  (sortDesc (documents.flatMap
    (fun p => localDocResults (pyLower query) query p.1 p.2))).take max_results

/-- `SearchService._semantic_search`: local search with a marker prefix. -/
def semanticSearch (query : Str) (documents : List (Uuid × Document))
    (max_results : Nat) : List SearchResult :=
  (localSearch query documents max_results).map
    (fun r => { r with context := str "[Semantic Search] " ++ r.context })

/-- The combine loop of `_hybrid_search`: deduplicate by document id,
prefix a marker, and break once `max_results` entries have been taken
(the length test runs after each append, so `max_results = 0` still yields
one entry, as in the source). -/
def hybridCombine (max_results : Nat) :
    List SearchResult → List Uuid → Nat → List SearchResult
  | [], _, _ => []
  | r :: rs, seen, count =>
      if r.document_id ∈ seen then hybridCombine max_results rs seen count
      else
        let r' := { r with context := str "[Hybrid Search] " ++ r.context }
        if max_results ≤ count + 1 then [r']
        else r' :: hybridCombine max_results rs (r.document_id :: seen) (count + 1)

/-- `SearchService._hybrid_search`. -/
def hybridSearch (query : Str) (documents : List (Uuid × Document))
    (max_results : Nat) : List SearchResult :=
  hybridCombine max_results
    (localSearch query documents max_results ++ semanticSearch query documents max_results)
    [] 0

/-- Outcome of `datetime.fromisoformat` on a filter value. -/
inductive DateBound where
  | valid (t : Time)
  | malformed
deriving DecidableEq

/-- A `filters` mapping; a key not passed is `none`.  `date_from`/`date_to`
values carry the outcome of `datetime.fromisoformat`: `malformed` covers
both falsy values (skipped by the truthiness test) and strings the parser
rejects (the `except` clause ignores them) — in all such cases the bound is
not applied. -/
structure Filters where
  tags : Option (List Str) := none
  date_from : Option DateBound := none
  date_to : Option DateBound := none
  has_file : Option Bool := none
deriving DecidableEq

/-- `SearchService._apply_filters` body for one document. -/
def passesFilters (f : Filters) (doc : Document) : Bool :=
  (match f.tags with
   | some ts => if !ts.isEmpty then ts.any (fun t => t ∈ doc.tags) else true
   | none => true) &&
  (match f.date_from with
   | some (DateBound.valid t) => !(doc.created_at < t)
   | _ => true) &&
  (match f.date_to with
   | some (DateBound.valid t) => !(t < doc.created_at)
   | _ => true) &&
  (match f.has_file with
   | some b => if b then optStrTruthy doc.file_path else !(optStrTruthy doc.file_path)
   | none => true)

/-- `SearchService._apply_filters`. -/
def applyFilters (documents : List (Uuid × Document)) (f : Option Filters) :
    List (Uuid × Document) :=
  match f with
  | none => documents
  | some ff => documents.filter (fun p => passesFilters ff p.2)

/-- `SearchService.search` with the given default provider. -/
def SearchService.search (default_provider : SearchProvider) (query : Str)
    (documents : List (Uuid × Document)) (provider : Option SearchProvider)
    (max_results : Nat) (filters : Option Filters) : List SearchResult :=
  let prov := provider.getD default_provider
  let docs := applyFilters documents filters
  match prov with
  | SearchProvider.LOCAL => localSearch query docs max_results
  | SearchProvider.SEMANTIC => semanticSearch query docs max_results
  | SearchProvider.HYBRID => hybridSearch query docs max_results
  | SearchProvider.EXTERNAL => localSearch query docs max_results

/-! ## Command layer (`commands.py`)

One constructor per concrete `Command` class.  Constructor arguments are
the fields set in `__init__`, including the snapshot fields a command
mutates during `execute()` (initially `none` / `false`); `execute` returns
the possibly updated command, mirroring in-place attribute assignment. -/

/-- The loop of `AddCitationCommand.execute` for an annotation target:
append the citation to the first annot with the given id. -/
def addCitToFirstAnnot : List Annot → Uuid → Citation → Option (List Annot)
  | [], _, _ => none
  | a :: rest, aid, cit =>
      if a.id = aid then some ({ a with citations := a.citations ++ [cit] } :: rest)
      else (addCitToFirstAnnot rest aid cit).map (a :: ·)

/-- The loop of `AddCitationCommand.undo` for an annotation target: pop the
citation with the given id from the first annot that both matches the id
and contains such a citation (the `return False` sits after the outer
loop, so the scan continues past id-matching annots without the
citation). -/
def popCitFromAnnots : List Annot → Uuid → Str → Option (List Annot)
  | [], _, _ => none
  | a :: rest, aid, cid =>
      if a.id = aid then
        match removeFirstCitation a.citations cid with
        | some cs => some ({ a with citations := cs } :: rest)
        | none => (popCitFromAnnots rest aid cid).map (a :: ·)
      else (popCitFromAnnots rest aid cid).map (a :: ·)

inductive Cmd where
  | AddDocumentCommand (context_id : Uuid) (document : Document)
  | CreateDocumentCommand (context_id : Uuid) (title content : Str)
      (metadata : Option (List (Str × Str))) (file : FileArg)
      (file_name file_type : Option Str) (tags : Option (Finset Str))
      (document : Option Document)
  | UpdateDocumentCommand (context_id document_id : Uuid)
      (title content : Option Str) (file : FileArg)
      (file_name file_type : Option Str) (tags : Option (Finset Str))
      (old_title old_content : Option Str)
      (old_file_path old_file_name old_file_type : Option Str)
      (old_file_size : Option Nat) (old_tags : Option (Finset Str))
  | AddAnnotationCommand (context_id document_id : Uuid) (ty : AnnotType)
      (text : Str) (position : List (Str × PosVal)) (user_id : Option Uuid)
      (color : Option Str) (citations : Option (List Citation))
      (annot : Option Annot)
  | RemoveAnnotationCommand (context_id document_id annot_id : Uuid)
      (removed_annot : Option Annot)
  | AddCitationCommand (context_id document_id : Uuid) (text source : Str)
      (page : Option Int) (sec url : Option Str) (annot_id : Option Uuid)
      (citation : Option Citation)
  | AddTagCommand (context_id document_id : Uuid) (tag : Str)
  | RemoveTagCommand (context_id document_id : Uuid) (tag : Str)
      (tag_was_present : Bool)
  | SearchDocumentsCommand (context_id : Uuid) (query : Str)
      (provider : Option SearchProvider) (max_results : Nat)
      (filters : Option Filters) (previous_results : Option (List SearchResult))
deriving DecidableEq

/-- Store a mutated document back into its context under its dict key. -/
def putDoc (w : World) (cid : Uuid) (ctx : DialogueContext) (did : Uuid)
    (d : Document) : World :=
  World.put_context w cid { ctx with documents := assocSet ctx.documents did d }

/-- `Command.execute` for each concrete command.  The returned `Cmd` is the
command object after the call (snapshot fields updated). -/
def Cmd.execute (c : Cmd) (w : World) : ExecResult × World × Cmd :=
  match c with
  | Cmd.AddDocumentCommand cid d =>
      match World.get_context w cid with
      | some ctx =>
          let r := w.tick
          (ExecResult.ok true,
           World.put_context r.2 cid (DialogueContext.add_document r.1 ctx d), c)
      | none => (ExecResult.ok false, w, c)
  | Cmd.CreateDocumentCommand cid title content metadata file file_name file_type tags _ =>
      match World.get_context w cid with
      | some ctx =>
          match DocumentService.create_document w title content metadata file
              file_name file_type tags with
          | .error w' => (ExecResult.exn, w', c)
          | .ok (doc, w1) =>
              let r := w1.tick
              (ExecResult.ok true,
               World.put_context r.2 cid (DialogueContext.add_document r.1 ctx doc),
               Cmd.CreateDocumentCommand cid title content metadata file
                 file_name file_type tags (some doc))
      | none => (ExecResult.ok false, w, c)
  | Cmd.UpdateDocumentCommand cid did title content file file_name file_type tags
      _ _ _ _ _ _ _ =>
      match World.get_context w cid with
      | some ctx =>
          match DialogueContext.get_document ctx did with
          | some document =>
              let cSnap := Cmd.UpdateDocumentCommand cid did title content file
                file_name file_type tags
                (some document.title) (some document.content)
                document.file_path document.file_name document.file_type
                document.file_size (some document.tags)
              match DocumentService.update_document w document title content file
                  file_name file_type tags with
              | .error (d', w') => (ExecResult.exn, putDoc w' cid ctx did d', cSnap)
              | .ok (d', w') => (ExecResult.ok true, putDoc w' cid ctx did d', cSnap)
          | none => (ExecResult.ok false, w, c)
      | none => (ExecResult.ok false, w, c)
  | Cmd.AddAnnotationCommand cid did ty text position user_id color citations _ =>
      match World.get_context w cid with
      | some ctx =>
          match DialogueContext.get_document ctx did with
          | some document =>
              let ra := DocumentService.create_annot w did ty text position
                user_id color citations
              let r := ra.2.tick
              let d' := Document.add_annot r.1 document ra.1
              (ExecResult.ok true, putDoc r.2 cid ctx did d',
               Cmd.AddAnnotationCommand cid did ty text position user_id color
                 citations (some ra.1))
          | none => (ExecResult.ok false, w, c)
      | none => (ExecResult.ok false, w, c)
  | Cmd.RemoveAnnotationCommand cid did aid _ =>
      match World.get_context w cid with
      | some ctx =>
          match DialogueContext.get_document ctx did with
          | some document =>
              match document.annotations.find? (fun a => a.id == aid) with
              | some found =>
                  let r := w.tick
                  let rr := Document.remove_annot r.1 document aid
                  (ExecResult.ok rr.1, putDoc r.2 cid ctx did rr.2,
                   Cmd.RemoveAnnotationCommand cid did aid (some found))
              | none => (ExecResult.ok false, w, c)
          | none => (ExecResult.ok false, w, c)
      | none => (ExecResult.ok false, w, c)
  | Cmd.AddCitationCommand cid did text source page sec url annot_id _ =>
      match World.get_context w cid with
      | some ctx =>
          match DialogueContext.get_document ctx did with
          | some document =>
              let rc := DocumentService.create_citation w text source page sec url
              let cSnap := Cmd.AddCitationCommand cid did text source page sec url
                annot_id (some rc.1)
              match annot_id with
              | some aid =>
                  match addCitToFirstAnnot document.annotations aid rc.1 with
                  | some l =>
                      let r := rc.2.tick
                      let d' := { document with annotations := l, updated_at := r.1 }
                      (ExecResult.ok true, putDoc r.2 cid ctx did d', cSnap)
                  | none => (ExecResult.ok false, rc.2, cSnap)
              | none =>
                  let r := rc.2.tick
                  let d' := Document.add_citation r.1 document rc.1
                  (ExecResult.ok true, putDoc r.2 cid ctx did d', cSnap)
          | none => (ExecResult.ok false, w, c)
      | none => (ExecResult.ok false, w, c)
  | Cmd.AddTagCommand cid did tag =>
      match World.get_context w cid with
      | some ctx =>
          match DialogueContext.get_document ctx did with
          | some document =>
              let r := w.tick
              let d' := Document.add_tag r.1 document tag
              (ExecResult.ok true, putDoc r.2 cid ctx did d', c)
          | none => (ExecResult.ok false, w, c)
      | none => (ExecResult.ok false, w, c)
  | Cmd.RemoveTagCommand cid did tag _ =>
      match World.get_context w cid with
      | some ctx =>
          match DialogueContext.get_document ctx did with
          | some document =>
              let present := decide (tag ∈ document.tags)
              let r := w.tick
              let rr := Document.remove_tag r.1 document tag
              (ExecResult.ok rr.1, putDoc r.2 cid ctx did rr.2,
               Cmd.RemoveTagCommand cid did tag present)
          | none => (ExecResult.ok false, w, c)
      | none => (ExecResult.ok false, w, c)
  | Cmd.SearchDocumentsCommand cid query provider max_results filters prevField =>
      match World.get_context w cid with
      | some ctx =>
          let newPrev := match assocGet ctx.active_search_results query with
            | some l => some l
            | none => prevField
          let results := SearchService.search SearchProvider.LOCAL query
            ctx.documents provider max_results filters
          let r := w.tick
          (ExecResult.ok true,
           World.put_context r.2 cid
             (DialogueContext.search_documents r.1 ctx query results),
           Cmd.SearchDocumentsCommand cid query provider max_results filters newPrev)
      | none => (ExecResult.ok false, w, c)

/-- `Command.undo` for each concrete command.  Undo never raises and never
mutates the command object. -/
def Cmd.undo (c : Cmd) (w : World) : Bool × World :=
  match c with
  | Cmd.AddDocumentCommand cid d =>
      match World.get_context w cid with
      | some ctx =>
          let r := w.tick
          let rr := DialogueContext.remove_document r.1 ctx d.id
          (rr.1, World.put_context r.2 cid rr.2)
      | none => (false, w)
  | Cmd.CreateDocumentCommand cid _ _ _ _ _ _ _ docField =>
      match docField with
      | some doc =>
          match World.get_context w cid with
          | some ctx =>
              -- `self.document` aliases the live object while it is still in
              -- the context; the file-deletion guard reads its current
              -- `file_path`, falling back to the snapshot if it was removed.
              let live := (DialogueContext.get_document ctx doc.id).getD doc
              let w1 := removeIfExists w live.file_path
              let r := w1.tick
              let rr := DialogueContext.remove_document r.1 ctx doc.id
              (rr.1, World.put_context r.2 cid rr.2)
          | none => (false, w)
      | none => (false, w)
  | Cmd.UpdateDocumentCommand cid did _ _ file _ _ _ old_title old_content
      old_file_path old_file_name old_file_type old_file_size old_tags =>
      match World.get_context w cid with
      | some ctx =>
          match DialogueContext.get_document ctx did with
          | some document =>
              let step1 :=
                if file.truthy && !(document.file_path == old_file_path) then
                  let w1 := removeIfExists w document.file_path
                  ({ document with
                       file_path := old_file_path, file_name := old_file_name,
                       file_type := old_file_type, file_size := old_file_size }, w1)
                else (document, w)
              let d1 := step1.1
              let d2 := { d1 with
                            title := old_title.getD d1.title,
                            content := old_content.getD d1.content,
                            tags := old_tags.getD d1.tags }
              let r := step1.2.tick
              (true, putDoc r.2 cid ctx did { d2 with updated_at := r.1 })
          | none => (false, w)
      | none => (false, w)
  | Cmd.AddAnnotationCommand cid did _ _ _ _ _ _ annField =>
      match annField with
      | some a =>
          match World.get_context w cid with
          | some ctx =>
              match DialogueContext.get_document ctx did with
              | some document =>
                  let r := w.tick
                  let rr := Document.remove_annot r.1 document a.id
                  (rr.1, putDoc r.2 cid ctx did rr.2)
              | none => (false, w)
          | none => (false, w)
      | none => (false, w)
  | Cmd.RemoveAnnotationCommand cid did _ annField =>
      match annField with
      | some a =>
          match World.get_context w cid with
          | some ctx =>
              match DialogueContext.get_document ctx did with
              | some document =>
                  let r := w.tick
                  (true, putDoc r.2 cid ctx did (Document.add_annot r.1 document a))
              | none => (false, w)
          | none => (false, w)
      | none => (false, w)
  | Cmd.AddCitationCommand cid did _ _ _ _ _ annot_id citField =>
      match citField with
      | some cit =>
          match World.get_context w cid with
          | some ctx =>
              match DialogueContext.get_document ctx did with
              | some document =>
                  match annot_id with
                  | some aid =>
                      match popCitFromAnnots document.annotations aid cit.id with
                      | some l =>
                          let r := w.tick
                          (true, putDoc r.2 cid ctx did
                            { document with annotations := l, updated_at := r.1 })
                      | none => (false, w)
                  | none =>
                      let r := w.tick
                      let rr := Document.remove_citation r.1 document cit.id
                      (rr.1, putDoc r.2 cid ctx did rr.2)
              | none => (false, w)
          | none => (false, w)
      | none => (false, w)
  | Cmd.AddTagCommand cid did tag =>
      match World.get_context w cid with
      | some ctx =>
          match DialogueContext.get_document ctx did with
          | some document =>
              let r := w.tick
              let rr := Document.remove_tag r.1 document tag
              (rr.1, putDoc r.2 cid ctx did rr.2)
          | none => (false, w)
      | none => (false, w)
  | Cmd.RemoveTagCommand cid did tag was =>
      if was then
        match World.get_context w cid with
        | some ctx =>
            match DialogueContext.get_document ctx did with
            | some document =>
                let r := w.tick
                (true, putDoc r.2 cid ctx did (Document.add_tag r.1 document tag))
            | none => (false, w)
        | none => (false, w)
      else (false, w)
  | Cmd.SearchDocumentsCommand cid query _ _ _ prevField =>
      match World.get_context w cid with
      | some ctx =>
          match prevField with
          | some l =>
              (true, World.put_context w cid
                { ctx with active_search_results :=
                    assocSet ctx.active_search_results query l })
          | none =>
              let r := w.tick
              (true, World.put_context r.2 cid
                (DialogueContext.clear_search_results r.1 ctx (some query)))
      | none => (false, w)

/-! ## `CommandHistory` -/

structure CommandHistory where
  history : List Cmd := []
  position : Int := -1
deriving DecidableEq

/-- Resolve a Python list index (negative indices count from the end);
`none` is an `IndexError`. -/
def pyIdx (n : Nat) (i : Int) : Option Nat :=
  if 0 ≤ i then (if i < (n : Int) then some i.toNat else none)
  else if 0 ≤ (n : Int) + i then some ((n : Int) + i).toNat else none

/-- Python `l[:i]` (negative `i` counts from the end). -/
def pySliceTo {α : Type} (l : List α) (i : Int) : List α :=
  if 0 ≤ i then l.take i.toNat else l.take ((l.length : Int) + i).toNat

/-- `CommandHistory.execute_command`. -/
def CommandHistory.execute_command (h : CommandHistory) (w : World) (c : Cmd) :
    ExecResult × CommandHistory × World :=
  match Cmd.execute c w with
  | (ExecResult.exn, w', _) => (ExecResult.exn, h, w')
  | (ExecResult.ok result, w', c') =>
      if result then
        (ExecResult.ok true,
         { history := (if h.position < (h.history.length : Int) - 1 then
                         pySliceTo h.history (h.position + 1)
                       else h.history) ++ [c'],
           position := (((if h.position < (h.history.length : Int) - 1 then
                            pySliceTo h.history (h.position + 1)
                          else h.history) ++ [c']).length : Int) - 1 }, w')
      else (ExecResult.ok false, h, w')

/-- `CommandHistory.undo`. -/
def CommandHistory.undo (h : CommandHistory) (w : World) :
    ExecResult × CommandHistory × World :=
  if 0 ≤ h.position then
    match pyIdx h.history.length h.position with
    | some i =>
        match h.history.get? i with
        | some c =>
            if (Cmd.undo c w).1 then
              (ExecResult.ok true, { h with position := h.position - 1 },
               (Cmd.undo c w).2)
            else (ExecResult.ok false, h, (Cmd.undo c w).2)
        | none => (ExecResult.exn, h, w)
    | none => (ExecResult.exn, h, w)
  else (ExecResult.ok false, h, w)

/-- `CommandHistory.redo`: the cursor is advanced before the re-execution,
so an execution that fails (or raises) leaves the cursor advanced. -/
def CommandHistory.redo (h : CommandHistory) (w : World) :
    ExecResult × CommandHistory × World :=
  if h.position < (h.history.length : Int) - 1 then
    match pyIdx h.history.length (h.position + 1) with
    | some i =>
        match h.history.get? i with
        | some c =>
            ((Cmd.execute c w).1,
             { history := h.history.set i (Cmd.execute c w).2.2,
               position := h.position + 1 },
             (Cmd.execute c w).2.1)
        | none => (ExecResult.exn, { h with position := h.position + 1 }, w)
    | none => (ExecResult.exn, { h with position := h.position + 1 }, w)
  else (ExecResult.ok false, h, w)

/-- One caller-level interaction with the history. -/
inductive HOp where
  | exec (c : Cmd)
  | doUndo
  | doRedo
deriving DecidableEq

/-- Apply one interaction, keeping only the resulting state. -/
def stepH (s : CommandHistory × World) (op : HOp) : CommandHistory × World :=
  match op with
  | HOp.exec c => let r := CommandHistory.execute_command s.1 s.2 c; (r.2.1, r.2.2)
  | HOp.doUndo => let r := CommandHistory.undo s.1 s.2; (r.2.1, r.2.2)
  | HOp.doRedo => let r := CommandHistory.redo s.1 s.2; (r.2.1, r.2.2)

/-- Run a sequence of interactions. -/
def runOps (ops : List HOp) (s : CommandHistory × World) :
    CommandHistory × World :=
  ops.foldl stepH s

/-! ## Association-list lemmas -/

theorem assocGet_assocSet_self {κ α : Type} [DecidableEq κ]
    (l : List (κ × α)) (k : κ) (v : α) :
    assocGet (assocSet l k v) k = some v := by
  induction l with
  | nil => simp [assocGet, assocSet]
  | cons p rest ih =>
      by_cases hk : p.1 = k
      · simp [assocSet, assocGet, hk]
      · simp [assocSet, assocGet, hk, ih]

theorem assocGet_assocSet_ne {κ α : Type} [DecidableEq κ]
    (l : List (κ × α)) (k k' : κ) (v : α) (hne : k' ≠ k) :
    assocGet (assocSet l k v) k' = assocGet l k' := by
  induction l with
  | nil => simp [assocGet, assocSet, Ne.symm hne]
  | cons p rest ih =>
      obtain ⟨pk, pv⟩ := p
      by_cases hk : pk = k
      · subst hk; simp [assocSet, assocGet, Ne.symm hne]
      · simp [assocSet, assocGet, hk, ih]

theorem assocSet_assocSet {κ α : Type} [DecidableEq κ]
    (l : List (κ × α)) (k : κ) (v v' : α) :
    assocSet (assocSet l k v) k v' = assocSet l k v' := by
  induction l with
  | nil => simp [assocSet]
  | cons p rest ih =>
      by_cases hk : p.1 = k
      · simp [assocSet, hk]
      · simp [assocSet, hk, ih]

theorem assocSet_self {κ α : Type} [DecidableEq κ]
    (l : List (κ × α)) (k : κ) (v : α) (h : assocGet l k = some v) :
    assocSet l k v = l := by
  induction l with
  | nil => simp [assocGet] at h
  | cons p rest ih =>
      obtain ⟨pk, pv⟩ := p
      by_cases hk : pk = k
      · subst hk
        simp [assocGet] at h
        simp [assocSet, h]
      · simp [assocGet, hk] at h
        simp [assocSet, hk, ih h]

theorem assocDel_assocSet_fresh {κ α : Type} [DecidableEq κ]
    (l : List (κ × α)) (k : κ) (v : α) (h : assocGet l k = none) :
    assocDel (assocSet l k v) k = l := by
  induction l with
  | nil => simp [assocSet, assocDel]
  | cons p rest ih =>
      by_cases hk : p.1 = k
      · simp [assocGet, hk] at h
      · simp [assocGet, hk] at h
        simp [assocSet, assocDel, hk, ih h]

/-! ## Shared sample inputs for witnesses -/

/-- A sample document carrying the tag `x`. -/
def sampleDoc : Document :=
  { id := 0, title := str "Brief", content := str "Once upon a time",
    tags := {str "x"} }

/-- A sample workspace holding `sampleDoc`. -/
def sampleCtx : DialogueContext :=
  { id := 0, documents := [(0, sampleDoc)] }

/-- A sample world with one context. -/
def sampleWorld : World :=
  { active_contexts := [(0, sampleCtx)], uuidCtr := 100, clock := 1000 }

/-! ## Claim C8: `Document.remove_tag` -/

/-- C8: for every document `d` and tag `t`, `remove_tag` returns `false`
and leaves `d` (including `updated_at`) entirely unchanged when `t` is not
in `d.tags`; when `t` is present it returns `true`, removes `t`, and
refreshes `updated_at` to the current time. -/
theorem remove_tag_spec (now : Time) (d : Document) (t : Str) :
    (t ∉ d.tags → Document.remove_tag now d t = (false, d)) ∧
    (t ∈ d.tags →
      Document.remove_tag now d t =
        (true, { d with tags := d.tags.erase t, updated_at := now })) := by
  refine ⟨fun h => ?_, fun h => ?_⟩
  · simp [Document.remove_tag, h]
  · simp [Document.remove_tag, h]

theorem remove_tag_spec_witness :
    Document.remove_tag 5 sampleDoc (str "y") = (false, sampleDoc) ∧
    Document.remove_tag 5 sampleDoc (str "x") =
      (true,
       { sampleDoc with tags := sampleDoc.tags.erase (str "x"),
                        updated_at := 5 }) :=
  ⟨(remove_tag_spec 5 sampleDoc (str "y")).1 (by decide),
   (remove_tag_spec 5 sampleDoc (str "x")).2 (by decide)⟩

/-! ## Claim C7: citation ids are content hashes, annot ids are fresh -/

/-- C7: `create_citation` called with identical
`(text, source, page, section, url)` arguments yields the same citation
id in any two worlds (the id is a content hash, independent of clock and
uuid supply); two successive `create_annotation` calls with all-identical
arguments yield distinct annot ids. -/
theorem citation_id_deterministic_annot_ids_fresh :
    (∀ (w w' : World) (text source : Str) (page : Option Int)
       (sec url : Option Str),
      (DocumentService.create_citation w text source page sec url).1.id =
      (DocumentService.create_citation w' text source page sec url).1.id) ∧
    (∀ (w : World) (did : Uuid) (ty : AnnotType) (text : Str)
       (position : List (Str × PosVal)) (user_id : Option Uuid)
       (color : Option Str) (citations : Option (List Citation)),
      (DocumentService.create_annot w did ty text position user_id color
        citations).1.id ≠
      (DocumentService.create_annot
        (DocumentService.create_annot w did ty text position user_id color
          citations).2 did ty text position user_id color citations).1.id) := by
  constructor
  · intro w w' text source page sec url
    simp [DocumentService.create_citation]
  · intro w did ty text position user_id color citations
    simp [DocumentService.create_annot, World.freshUuid, World.tick]

theorem citation_annot_witness :
    (DocumentService.create_annot sampleWorld 0 AnnotType.COMMENT (str "n")
      [] none none none).1.id ≠
    (DocumentService.create_annot
      (DocumentService.create_annot sampleWorld 0 AnnotType.COMMENT (str "n")
        [] none none none).2 0 AnnotType.COMMENT (str "n") [] none none
      none).1.id :=
  citation_id_deterministic_annot_ids_fresh.2 sampleWorld 0 AnnotType.COMMENT
    (str "n") [] none none none

/-! ## Claims C2, C3, C9: the `CommandHistory` state machine -/

/-- The truncation branch of `execute_command` is plain `take` for any
cursor value the history can actually hold (`-1 ≤ position`). -/
theorem truncate_eq (l : List Cmd) (pos : Int) (hpos : -1 ≤ pos) :
    (if pos < (l.length : Int) - 1 then pySliceTo l (pos + 1) else l) =
      l.take (pos + 1).toNat := by
  by_cases hlt : pos < (l.length : Int) - 1
  · rw [if_pos hlt]
    unfold pySliceTo
    have h0 : (0 : Int) ≤ pos + 1 := by omega
    rw [if_pos h0]
  · rw [if_neg hlt]
    have : l.length ≤ (pos + 1).toNat := by omega
    exact (List.take_of_length_le this).symm

/-- Helper: a failed (`ok false`) `execute_command` leaves the record unchanged. -/
theorem exec_cmd_false_unchanged (h : CommandHistory) (w : World) (c : Cmd)
    (h' : CommandHistory) (w' : World)
    (heq : CommandHistory.execute_command h w c = (ExecResult.ok false, h', w')) :
    h' = h := by
  rcases hE : Cmd.execute c w with ⟨res, w0, c0⟩
  simp only [CommandHistory.execute_command, hE] at heq
  cases res with
  | exn => simp at heq
  | ok b =>
      cases b
      · simp only [Bool.false_eq_true, if_false] at heq
        simp only [Prod.mk.injEq] at heq
        exact heq.2.1.symm
      · simp only [if_true] at heq
        simp only [Prod.mk.injEq] at heq
        exact absurd heq.1 (by simp)

/-- Helper: the shape of the record after a successful `execute_command`. -/
theorem exec_cmd_true_shape (h : CommandHistory) (w : World) (c : Cmd)
    (h' : CommandHistory) (w' : World)
    (heq : CommandHistory.execute_command h w c = (ExecResult.ok true, h', w')) :
    h'.history = (if h.position < (h.history.length : Int) - 1 then
                    pySliceTo h.history (h.position + 1)
                  else h.history) ++ [(Cmd.execute c w).2.2] ∧
    h'.position = (h'.history.length : Int) - 1 := by
  rcases hE : Cmd.execute c w with ⟨res, w0, c0⟩
  simp only [CommandHistory.execute_command, hE] at heq
  cases res with
  | exn => simp at heq
  | ok b =>
      cases b
      · simp only [Bool.false_eq_true, if_false] at heq
        simp only [Prod.mk.injEq] at heq
        exact absurd heq.1 (by simp)
      · simp only [if_true] at heq
        simp only [Prod.mk.injEq] at heq
        obtain ⟨-, hh, -⟩ := heq
        subst hh
        exact ⟨rfl, rfl⟩

/-- C3: for any reachable cursor (`-1 ≤ position`), a successful
`execute_command(cmd)` truncates the sequence to the first `position + 1`
commands (discarding the redo tail), appends the executed command, and sets
the cursor to the new last index — so the discarded commands are no longer
in the history that `redo()` indexes; on execute failure the history record
is unchanged (the command is not appended). -/
theorem execute_command_truncates (h : CommandHistory) (w : World) (c : Cmd)
    (hpos : -1 ≤ h.position) :
    (∀ h' w', CommandHistory.execute_command h w c = (ExecResult.ok true, h', w') →
      h'.history = h.history.take (h.position + 1).toNat ++ [(Cmd.execute c w).2.2] ∧
      h'.position = (h'.history.length : Int) - 1) ∧
    (∀ h' w', CommandHistory.execute_command h w c = (ExecResult.ok false, h', w') →
      h' = h) := by
  constructor
  · intro h' w' heq
    obtain ⟨h1, h2⟩ := exec_cmd_true_shape h w c h' w' heq
    rw [truncate_eq h.history h.position hpos] at h1
    exact ⟨h1, h2⟩
  · intro h' w' heq
    exact exec_cmd_false_unchanged h w c h' w' heq

/-- A sample two-command history with the cursor after the first command
(one command undone), used to exercise truncation. -/
def chC3 : CommandHistory :=
  { history := [Cmd.AddTagCommand 0 0 (str "z"), Cmd.AddTagCommand 0 0 (str "w")],
    position := 0 }

/-- A sample command that succeeds on `sampleWorld`. -/
def tagCmdX : Cmd := Cmd.AddTagCommand 0 0 (str "x")

theorem execute_command_truncates_witness :
    ((CommandHistory.execute_command chC3 sampleWorld tagCmdX).2.1).history =
      chC3.history.take (chC3.position + 1).toNat ++
        [(Cmd.execute tagCmdX sampleWorld).2.2] ∧
    ((CommandHistory.execute_command chC3 sampleWorld tagCmdX).2.1).position =
      ((((CommandHistory.execute_command chC3 sampleWorld
          tagCmdX).2.1).history.length : Int)) - 1 :=
  (execute_command_truncates chC3 sampleWorld tagCmdX (by decide)).1
    ((CommandHistory.execute_command chC3 sampleWorld tagCmdX).2.1)
    ((CommandHistory.execute_command chC3 sampleWorld tagCmdX).2.2)
    (by decide)

/-- Helper: a failed (`ok false`) `undo` leaves the record unchanged. -/
theorem undo_false_unchanged (h : CommandHistory) (w : World)
    (h' : CommandHistory) (w' : World)
    (heq : CommandHistory.undo h w = (ExecResult.ok false, h', w')) :
    h' = h := by
  unfold CommandHistory.undo at heq
  split at heq
  · split at heq
    · split at heq
      · split at heq
        · simp only [Prod.mk.injEq] at heq
          exact absurd heq.1 (by simp)
        · simp only [Prod.mk.injEq] at heq
          exact heq.2.1.symm
      · simp at heq
    · simp at heq
  · simp only [Prod.mk.injEq] at heq
    exact heq.2.1.symm

/-- C2 (amended): a failed `execute_command` and a failed `undo` leave the
history record (sequence and cursor) unchanged, and a `redo` attempted with
the cursor already at the last index returns false and changes nothing; but
a `redo` whose re-execution returns false has already advanced the cursor
by one (the sequence keeps its length, and the re-run command's snapshot
state may have been updated in place). -/
theorem failed_call_amended (h : CommandHistory) (w : World) (c : Cmd) :
    (∀ h' w', CommandHistory.execute_command h w c = (ExecResult.ok false, h', w') →
      h' = h) ∧
    (∀ h' w', CommandHistory.undo h w = (ExecResult.ok false, h', w') → h' = h) ∧
    ((h.history.length : Int) - 1 ≤ h.position →
      CommandHistory.redo h w = (ExecResult.ok false, h, w)) ∧
    (∀ h' w', CommandHistory.redo h w = (ExecResult.ok false, h', w') →
      h.position < (h.history.length : Int) - 1 →
      h'.position = h.position + 1 ∧ h'.history.length = h.history.length) := by
  refine ⟨fun h' w' heq => exec_cmd_false_unchanged h w c h' w' heq,
          fun h' w' heq => undo_false_unchanged h w h' w' heq, ?_, ?_⟩
  · intro hge
    unfold CommandHistory.redo
    rw [if_neg (by omega)]
  · intro h' w' heq hlt
    unfold CommandHistory.redo at heq
    rw [if_pos hlt] at heq
    split at heq
    · split at heq
      · simp only [Prod.mk.injEq] at heq
        rw [← heq.2.1]
        exact ⟨rfl, by simp⟩
      · simp at heq
    · simp at heq

/-- C2 counterexample: a mid-history `redo` whose command execution fails
returns false yet moves the cursor — refuting the claim that every false
return from `execute_command`/`undo`/`redo` leaves the history record
unchanged. -/
theorem failed_call_counterexample :
    (CommandHistory.redo
      { history := [Cmd.AddTagCommand 0 0 (str "x")], position := -1 }
      { }).1 = ExecResult.ok false ∧
    ((CommandHistory.redo
      { history := [Cmd.AddTagCommand 0 0 (str "x")], position := -1 }
      { }).2.1).position ≠
      (CommandHistory.mk [Cmd.AddTagCommand 0 0 (str "x")] (-1)).position := by
  decide

theorem failed_call_witness :
    ((CommandHistory.redo
      { history := [Cmd.AddTagCommand 0 0 (str "x")], position := -1 }
      { }).2.1).position = (-1 : Int) + 1 ∧
    ((CommandHistory.redo
      { history := [Cmd.AddTagCommand 0 0 (str "x")], position := -1 }
      { }).2.1).history.length = 1 :=
  (failed_call_amended
    { history := [Cmd.AddTagCommand 0 0 (str "x")], position := -1 }
    { } (Cmd.AddTagCommand 0 0 (str "x"))).2.2.2
    ((CommandHistory.redo
      { history := [Cmd.AddTagCommand 0 0 (str "x")], position := -1 } { }).2.1)
    ((CommandHistory.redo
      { history := [Cmd.AddTagCommand 0 0 (str "x")], position := -1 } { }).2.2)
    (by decide) (by decide)

/-- The cursor invariant of a `CommandHistory`. -/
def HistInv (h : CommandHistory) : Prop :=
  -1 ≤ h.position ∧ h.position ≤ (h.history.length : Int) - 1

/-- Helper: every interaction preserves the cursor invariant. -/
theorem histInv_step (h : CommandHistory) (w : World) (op : HOp)
    (hs : HistInv h) : HistInv (stepH (h, w) op).1 := by
  obtain ⟨h1, h2⟩ := hs
  cases op with
  | exec c =>
      rcases hE : Cmd.execute c w with ⟨res, w0, c0⟩
      cases res with
      | exn =>
          simp only [stepH, CommandHistory.execute_command, hE]
          exact ⟨h1, h2⟩
      | ok b =>
          cases b
          · simp [stepH, CommandHistory.execute_command, hE, HistInv]
            omega
          · simp [stepH, CommandHistory.execute_command, hE, HistInv]
            omega
  | doUndo =>
      by_cases hp : 0 ≤ h.position
      · cases hidx : pyIdx h.history.length h.position with
        | none =>
            simp [stepH, CommandHistory.undo, hp, hidx, HistInv]
            omega
        | some i =>
            cases hget : h.history[i]? with
            | none =>
                simp [stepH, CommandHistory.undo, hp, hidx, hget, HistInv]
                omega
            | some c =>
                by_cases hr : (Cmd.undo c w).1 = true
                · simp [stepH, CommandHistory.undo, hp, hidx, hget, hr, HistInv]
                  omega
                · simp [stepH, CommandHistory.undo, hp, hidx, hget, hr, HistInv]
                  omega
      · simp [stepH, CommandHistory.undo, hp, HistInv]
        omega
  | doRedo =>
      by_cases hlt : h.position < (h.history.length : Int) - 1
      · cases hidx : pyIdx h.history.length (h.position + 1) with
        | none =>
            simp [stepH, CommandHistory.redo, hlt, hidx, HistInv]
            omega
        | some i =>
            cases hget : h.history[i]? with
            | none =>
                simp [stepH, CommandHistory.redo, hlt, hidx, hget, HistInv]
                omega
            | some c =>
                rcases hE : Cmd.execute c w with ⟨res, w0, c0⟩
                simp [stepH, CommandHistory.redo, hlt, hidx, hget, hE, HistInv,
                      List.length_set]
                omega
      · simp [stepH, CommandHistory.redo, hlt, HistInv]
        omega

/-- Helper: the invariant is preserved along any interaction sequence. -/
theorem histInv_run (ops : List HOp) (s : CommandHistory × World)
    (hs : HistInv s.1) : HistInv (runOps ops s).1 := by
  induction ops generalizing s with
  | nil => simpa [runOps] using hs
  | cons op rest ih =>
      have hstep := histInv_step s.1 s.2 op hs
      simpa [runOps, List.foldl] using ih (stepH s op) hstep

/-- C9: starting from a fresh history (empty sequence, cursor `-1`), any
sequence of `execute_command`/`undo`/`redo` interactions keeps
`-1 ≤ position ≤ len(history) - 1`; and the cursor sits at the last index
immediately after every successful `execute_command`. -/
theorem history_position_invariant :
    (∀ (w : World) (ops : List HOp),
      HistInv (runOps ops ({ history := [], position := -1 }, w)).1) ∧
    (∀ (h : CommandHistory) (w : World) (c : Cmd) h' w',
      CommandHistory.execute_command h w c = (ExecResult.ok true, h', w') →
      h'.position = (h'.history.length : Int) - 1) := by
  constructor
  · intro w ops
    exact histInv_run ops _ ⟨by simp, by simp⟩
  · intro h w c h' w' heq
    exact (exec_cmd_true_shape h w c h' w' heq).2

theorem history_position_invariant_witness :
    ((CommandHistory.execute_command { history := [], position := -1 }
        sampleWorld (Cmd.AddTagCommand 0 0 (str "x"))).2.1).position =
      ((((CommandHistory.execute_command { history := [], position := -1 }
        sampleWorld (Cmd.AddTagCommand 0 0 (str "x"))).2.1).history.length : Int)) - 1 :=
  history_position_invariant.2 { history := [], position := -1 } sampleWorld
    (Cmd.AddTagCommand 0 0 (str "x"))
    ((CommandHistory.execute_command { history := [], position := -1 }
        sampleWorld (Cmd.AddTagCommand 0 0 (str "x"))).2.1)
    ((CommandHistory.execute_command { history := [], position := -1 }
        sampleWorld (Cmd.AddTagCommand 0 0 (str "x"))).2.2)
    (by decide)

/-! ## Claim C10: tag-command undo asymmetry -/

/-- C10: on a document that already contains tag `t`, `AddTagCommand`
executes successfully (returning true) and its undo removes `t`
unconditionally, leaving the document without a tag it had before the
command ran; `RemoveTagCommand`, by contrast, snapshots whether the tag was
present at execute time, its undo re-adds the tag when it was present, and
its undo does nothing (returning false) when it was not. -/
theorem add_tag_undo_asymmetry (w : World) (cid did : Uuid) (t t2 : Str)
    (ctx : DialogueContext) (d : Document)
    (hc : World.get_context w cid = some ctx)
    (hd : DialogueContext.get_document ctx did = some d)
    (ht : t ∈ d.tags) (ht2 : t2 ∉ d.tags) :
    ((Cmd.AddTagCommand cid did t).execute w).1 = ExecResult.ok true ∧
    (∃ d2,
      (Cmd.undo (Cmd.AddTagCommand cid did t)
          ((Cmd.AddTagCommand cid did t).execute w).2.1).1 = true ∧
      (World.get_context
          (Cmd.undo (Cmd.AddTagCommand cid did t)
            ((Cmd.AddTagCommand cid did t).execute w).2.1).2 cid).bind
        (fun c2 => DialogueContext.get_document c2 did) = some d2 ∧
      t ∉ d2.tags) ∧
    (((Cmd.RemoveTagCommand cid did t false).execute w).2.2 =
        Cmd.RemoveTagCommand cid did t true ∧
     ∃ d3,
      (Cmd.undo ((Cmd.RemoveTagCommand cid did t false).execute w).2.2
          ((Cmd.RemoveTagCommand cid did t false).execute w).2.1).1 = true ∧
      (World.get_context
          (Cmd.undo ((Cmd.RemoveTagCommand cid did t false).execute w).2.2
            ((Cmd.RemoveTagCommand cid did t false).execute w).2.1).2 cid).bind
        (fun c3 => DialogueContext.get_document c3 did) = some d3 ∧
      t ∈ d3.tags) ∧
    (((Cmd.RemoveTagCommand cid did t2 false).execute w).2.2 =
        Cmd.RemoveTagCommand cid did t2 false ∧
     Cmd.undo ((Cmd.RemoveTagCommand cid did t2 false).execute w).2.2
         ((Cmd.RemoveTagCommand cid did t2 false).execute w).2.1 =
       (false, ((Cmd.RemoveTagCommand cid did t2 false).execute w).2.1)) := by
  have hc' : assocGet w.active_contexts cid = some ctx := hc
  have hd' : assocGet ctx.documents did = some d := hd
  refine ⟨?_, ?_, ⟨?_, ?_⟩, ⟨?_, ?_⟩⟩
  · simp [Cmd.execute, hc, hd]
  · refine ⟨{ d with
                tags := (insert t d.tags).erase t,
                updated_at := w.clock + 1 }, ?_, ?_, ?_⟩
    · simp [Cmd.execute, Cmd.undo, hc, hd, putDoc, World.put_context,
            World.get_context, World.tick, Document.add_tag, Document.remove_tag,
            DialogueContext.get_document, assocGet_assocSet_self,
            Finset.mem_insert_self, hc', hd', ht]
    · simp [Cmd.execute, Cmd.undo, hc, hd, putDoc, World.put_context,
            World.get_context, World.tick, Document.add_tag, Document.remove_tag,
            DialogueContext.get_document, assocGet_assocSet_self,
            Finset.mem_insert_self, hc', hd', ht]
    · exact Finset.not_mem_erase t _
  · simp [Cmd.execute, hc, hd, ht]
  · refine ⟨{ d with
                tags := insert t (d.tags.erase t),
                updated_at := w.clock + 1 }, ?_, ?_, ?_⟩
    · simp [Cmd.execute, Cmd.undo, hc, hd, ht, putDoc, World.put_context,
            World.get_context, World.tick, Document.add_tag, Document.remove_tag,
            DialogueContext.get_document, assocGet_assocSet_self, hc', hd']
    · simp [Cmd.execute, Cmd.undo, hc, hd, ht, putDoc, World.put_context,
            World.get_context, World.tick, Document.add_tag, Document.remove_tag,
            DialogueContext.get_document, assocGet_assocSet_self, hc', hd']
    · exact Finset.mem_insert_self t _
  · simp [Cmd.execute, hc, hd, ht2]
  · have h42 : ((Cmd.RemoveTagCommand cid did t2 false).execute w).2.2 =
        Cmd.RemoveTagCommand cid did t2 false := by
      simp [Cmd.execute, hc, hd, ht2]
    rw [h42]
    simp [Cmd.undo]

theorem add_tag_undo_asymmetry_witness :
    ((Cmd.AddTagCommand 0 0 (str "x")).execute sampleWorld).1 =
      ExecResult.ok true ∧
    (Cmd.undo (Cmd.AddTagCommand 0 0 (str "x"))
        ((Cmd.AddTagCommand 0 0 (str "x")).execute sampleWorld).2.1).1 = true :=
  ⟨(add_tag_undo_asymmetry sampleWorld 0 0 (str "x") (str "y") sampleCtx
      sampleDoc (by decide) (by decide) (by decide) (by decide)).1,
   ((add_tag_undo_asymmetry sampleWorld 0 0 (str "x") (str "y") sampleCtx
      sampleDoc (by decide) (by decide) (by decide) (by decide)).2.1).choose_spec.1⟩

/-! ## Claim C5: the four attached-file fields -/

theorem removeIfExists_writeFail (w : World) (p? : Option Str) :
    (removeIfExists w p?).writeFail = w.writeFail := by
  rcases p? with _ | p
  · rfl
  · simp only [removeIfExists]
    split <;> rfl

theorem removeIfExists_clock (w : World) (p? : Option Str) :
    (removeIfExists w p?).clock = w.clock := by
  rcases p? with _ | p
  · rfl
  · simp only [removeIfExists]
    split <;> rfl

theorem applyUpdates_file_fields (d : Document) (t c : Option Str)
    (tg : Option (Finset Str)) :
    (applyUpdates d t c tg).id = d.id ∧
    (applyUpdates d t c tg).file_path = d.file_path ∧
    (applyUpdates d t c tg).file_name = d.file_name ∧
    (applyUpdates d t c tg).file_type = d.file_type ∧
    (applyUpdates d t c tg).file_size = d.file_size := by
  rcases t <;> rcases c <;> rcases tg <;> simp [applyUpdates]

/-- The "all four present or all four absent" invariant claimed for the
attached-file descriptor. -/
def fileFieldsConsistent (d : Document) : Prop :=
  (d.file_path.isSome ∧ d.file_name.isSome ∧ d.file_type.isSome ∧
   d.file_size.isSome) ∨
  (d.file_path = none ∧ d.file_name = none ∧ d.file_type = none ∧
   d.file_size = none)

/-- C5 counterexample: `create_document` stores the `file_name` argument
verbatim even when no file payload is supplied, producing a document with
`file_name` present but `file_path`/`file_size` absent. -/
theorem file_fields_counterexample :
    ∃ d w', DocumentService.create_document sampleWorld (str "t") (str "c")
        none FileArg.noArg (some (str "x")) none none = Except.ok (d, w') ∧
      d.file_name = some (str "x") ∧ d.file_path = none :=
  ⟨_, _, rfl, rfl, rfl⟩

/-- C5 (amended): the all-four-or-none invariant holds on the calls the
service is designed for — creating with either no file-related arguments or
a savable payload plus nonempty name and a type (write succeeding),
updating with either no file payload or a savable payload plus nonempty
name and a type, and `delete_file` (success clears all four; failure leaves
the document untouched).  Calls that pass a name without a payload, omit
the type, or pass an unsavable payload can break the invariant (see the
counterexample). -/
theorem file_fields_amended (w : World) (title content : Str)
    (md : Option (List (Str × Str))) (payload : Str) (fname ftype : Str)
    (tags : Option (Finset Str)) (d : Document)
    (hW : w.writeFail = false) (hn : fname ≠ []) :
    (∃ d' w', DocumentService.create_document w title content md
        (FileArg.payload payload) (some fname) (some ftype) tags =
          Except.ok (d', w') ∧
      d'.file_path.isSome ∧ d'.file_name.isSome ∧ d'.file_type.isSome ∧
      d'.file_size.isSome) ∧
    (∃ d' w', DocumentService.create_document w title content md FileArg.noArg
        none none tags = Except.ok (d', w') ∧
      d'.file_path = none ∧ d'.file_name = none ∧ d'.file_type = none ∧
      d'.file_size = none) ∧
    (∀ (t' c' : Option Str) (tg' : Option (Finset Str)),
      fileFieldsConsistent d →
      ∃ d' w', DocumentService.update_document w d t' c' FileArg.noArg none
          none tg' = Except.ok (d', w') ∧ fileFieldsConsistent d') ∧
    (∀ (t' c' : Option Str) (tg' : Option (Finset Str)),
      ∃ d' w', DocumentService.update_document w d t' c'
          (FileArg.payload payload) (some fname) (some ftype) tg' =
            Except.ok (d', w') ∧
        d'.file_path.isSome ∧ d'.file_name.isSome ∧ d'.file_type.isSome ∧
        d'.file_size.isSome) ∧
    ((DocumentService.delete_file w d).1 = true →
      ((DocumentService.delete_file w d).2.1.file_path = none ∧
       (DocumentService.delete_file w d).2.1.file_name = none ∧
       (DocumentService.delete_file w d).2.1.file_type = none ∧
       (DocumentService.delete_file w d).2.1.file_size = none)) ∧
    ((DocumentService.delete_file w d).1 = false →
      (DocumentService.delete_file w d).2.1 = d) := by
  have hb : (FileArg.truthy (FileArg.payload payload) &&
      optStrTruthy (some fname)) = true := by
    simp [FileArg.truthy, optStrTruthy]
    exact hn
  refine ⟨?_, ?_, ?_, ?_, ?_, ?_⟩
  · simp only [DocumentService.create_document, hb, if_true, savedFile,
               World.freshUuid, World.tick, hW, Bool.false_eq_true, if_false]
    exact ⟨_, _, rfl, rfl, rfl, rfl, rfl⟩
  · simp only [DocumentService.create_document, FileArg.truthy,
               Bool.false_and, Bool.false_eq_true, if_false]
    exact ⟨_, _, rfl, rfl, rfl, rfl, rfl⟩
  · intro t' c' tg' hcons
    have hf := applyUpdates_file_fields d t' c' tg'
    simp only [DocumentService.update_document, FileArg.truthy,
               Bool.false_and, Bool.false_eq_true, if_false]
    refine ⟨_, _, rfl, ?_⟩
    simp only [fileFieldsConsistent, hf.2.1, hf.2.2.1, hf.2.2.2.1, hf.2.2.2.2]
    exact hcons
  · intro t' c' tg'
    simp only [DocumentService.update_document, hb, if_true, savedFile,
               removeIfExists_writeFail, hW, Bool.false_eq_true, if_false]
    exact ⟨_, _, rfl, rfl, rfl, rfl, rfl⟩
  · intro htrue
    rcases hfp : d.file_path with _ | p
    · simp [DocumentService.delete_file, hfp] at htrue
    · by_cases hex : (!p.isEmpty && (assocGet w.fs p).isSome) = true
      · simp [DocumentService.delete_file, hfp, hex]
      · simp [DocumentService.delete_file, hfp, hex] at htrue
  · intro hfalse
    rcases hfp : d.file_path with _ | p
    · simp [DocumentService.delete_file, hfp]
    · by_cases hex : (!p.isEmpty && (assocGet w.fs p).isSome) = true
      · simp [DocumentService.delete_file, hfp, hex] at hfalse
      · simp [DocumentService.delete_file, hfp, hex]

theorem file_fields_witness :
    ∃ d' w', DocumentService.create_document sampleWorld (str "t") (str "c")
        none (FileArg.payload (str "pp")) (some (str "f.txt"))
        (some (str "text/plain")) none = Except.ok (d', w') ∧
      d'.file_path.isSome ∧ d'.file_name.isSome ∧ d'.file_type.isSome ∧
      d'.file_size.isSome :=
  (file_fields_amended sampleWorld (str "t") (str "c") none (str "pp")
    (str "f.txt") (str "text/plain") none sampleDoc rfl (by decide)).1

/-! ## Claim C4: file-write failure during create/update commands -/

/-- A world whose next file write raises. -/
def sampleWorldFail : World :=
  { active_contexts := [(0, sampleCtx)], uuidCtr := 100, clock := 1000,
    writeFail := true }

/-- An update command carrying both a title change and a file payload. -/
def updFailCmd : Cmd :=
  Cmd.UpdateDocumentCommand 0 0 (some (str "new")) none
    (FileArg.payload (str "zz")) (some (str "f")) (some (str "t")) none
    none none none none none none none

/-- C4 counterexample: when the file write raises during
`UpdateDocumentCommand.execute`, the call does not return false (the
exception propagates) and the document's title — assigned before the write
— remains mutated. -/
theorem file_write_failure_counterexample :
    (Cmd.execute updFailCmd sampleWorldFail).1 = ExecResult.exn ∧
    ∃ d', (World.get_context (Cmd.execute updFailCmd sampleWorldFail).2.1
        0).bind (fun c2 => DialogueContext.get_document c2 0) = some d' ∧
      d'.title = str "new" ∧ sampleDoc.title ≠ str "new" :=
  ⟨rfl, ⟨_, rfl, rfl, by decide⟩⟩

/-- C4 (amended): a failing file write makes the command raise (modelled
`ExecResult.exn`) rather than return false.  For `UpdateDocumentCommand`
the title/content/tags assignments made before the write persist in the
entity graph (the file fields themselves are untouched); for
`CreateDocumentCommand` the write happens before the document is
constructed, so the entity graph is unchanged. -/
theorem file_write_failure_amended (w : World) (cid did : Uuid)
    (t' c' : Option Str) (payload : Str) (fname ftype : Str)
    (tg' : Option (Finset Str)) (title content : Str)
    (md : Option (List (Str × Str))) (tgc : Option (Finset Str))
    (ctx : DialogueContext) (d : Document)
    (hW : w.writeFail = true) (hn : fname ≠ [])
    (hc : World.get_context w cid = some ctx)
    (hd : DialogueContext.get_document ctx did = some d) :
    ((Cmd.UpdateDocumentCommand cid did t' c' (FileArg.payload payload)
        (some fname) (some ftype) tg' none none none none none none
        none).execute w).1 = ExecResult.exn ∧
    (World.get_context
        ((Cmd.UpdateDocumentCommand cid did t' c' (FileArg.payload payload)
          (some fname) (some ftype) tg' none none none none none none
          none).execute w).2.1 cid).bind
      (fun c2 => DialogueContext.get_document c2 did) =
        some (applyUpdates d t' c' tg') ∧
    ((applyUpdates d t' c' tg').file_path = d.file_path ∧
     (applyUpdates d t' c' tg').file_name = d.file_name ∧
     (applyUpdates d t' c' tg').file_type = d.file_type ∧
     (applyUpdates d t' c' tg').file_size = d.file_size) ∧
    ((Cmd.CreateDocumentCommand cid title content md (FileArg.payload payload)
        (some fname) (some ftype) tgc none).execute w).1 = ExecResult.exn ∧
    ((Cmd.CreateDocumentCommand cid title content md (FileArg.payload payload)
        (some fname) (some ftype) tgc none).execute w).2.1.active_contexts =
      w.active_contexts := by
  have hc' : assocGet w.active_contexts cid = some ctx := hc
  have hd' : assocGet ctx.documents did = some d := hd
  have hb : (FileArg.truthy (FileArg.payload payload) &&
      optStrTruthy (some fname)) = true := by
    simp [FileArg.truthy, optStrTruthy]
    exact hn
  refine ⟨?_, ?_, ?_, ?_, ?_⟩
  · simp [Cmd.execute, DocumentService.update_document, savedFile, hb, hW,
          hc', hd', removeIfExists_writeFail, World.get_context,
          DialogueContext.get_document]
  · simp [Cmd.execute, DocumentService.update_document, savedFile, hb, hW,
          hc', hd', removeIfExists_writeFail, World.get_context,
          DialogueContext.get_document, putDoc, World.put_context,
          assocGet_assocSet_self]
  · have hf := applyUpdates_file_fields d t' c' tg'
    exact ⟨hf.2.1, hf.2.2.1, hf.2.2.2.1, hf.2.2.2.2⟩
  · simp [Cmd.execute, DocumentService.create_document, savedFile, hb, hW,
          hc', World.get_context, World.freshUuid, World.tick]
  · simp [Cmd.execute, DocumentService.create_document, savedFile, hb, hW,
          hc', World.get_context, World.freshUuid, World.tick]

theorem file_write_failure_witness :
    ((Cmd.UpdateDocumentCommand 0 0 (some (str "new")) none
        (FileArg.payload (str "zz")) (some (str "f")) (some (str "t")) none
        none none none none none none none).execute sampleWorldFail).1 =
      ExecResult.exn ∧
    ((Cmd.CreateDocumentCommand 0 (str "t2") (str "c2") none
        (FileArg.payload (str "zz")) (some (str "f")) (some (str "t")) none
        none).execute sampleWorldFail).2.1.active_contexts =
      sampleWorldFail.active_contexts := by
  have h := file_write_failure_amended sampleWorldFail 0 0 (some (str "new"))
    none (str "zz") (str "f") (str "t") none (str "t2") (str "c2") none none
    sampleCtx sampleDoc rfl (by decide) (by decide) (by decide)
  exact ⟨h.1, h.2.2.2.2⟩

/-! ## Claim C6: LOCAL search against its specification

The `spec…` definitions below are written from the claim's wording (the
one refinement exception): per document one title result at relevance 1.0
and at most one content result at 0.8 for the first occurrence, context =
the matched slice extended by up to 50 characters per side with an
ellipsis marker exactly on the truncated sides, output sorted by
descending score with ties in encounter order (equivalently, with only
the scores 1.0 and 0.8 in play: all 1.0 results in encounter order
followed by all 0.8 results in encounter order), truncated to
`max_results`.  The claim does not constrain the title result's context
string; it is the full title, as in the code. -/

/-- The matched slice extended by up to 50 characters on each side, an
ellipsis marker exactly on the truncated sides. -/
def specContext (content : Str) (i qlen : Nat) : Str :=
  let leftExt := min 50 i
  let rightEnd := min content.length (i + qlen + 50)
  let core := (content.drop (i - leftExt)).take (rightEnd - (i - leftExt))
  let withLeft := if leftExt < i then str "..." ++ core else core
  if rightEnd < content.length then withLeft ++ str "..." else withLeft

/-- One result with relevance 1.0 and matched text the full title, when
the lowercased query occurs in the lowercased title. -/
def specTitleResults (query : Str) (doc_id : Uuid) (doc : Document) :
    List SearchResult :=
  if occursIn (pyLower query) (pyLower doc.title) then
    [{ document_id := doc_id, relevance_score := 1,
       matched_text := doc.title, context := doc.title }]
  else []

/-- At most one result with relevance 0.8, for the first content
occurrence only, with the exact matched slice, the padded context, and the
character offsets of the match. -/
def specContentResults (query : Str) (doc_id : Uuid) (doc : Document) :
    List SearchResult :=
  match pyFind (pyLower doc.content) (pyLower query) with
  | some i =>
      [{ document_id := doc_id, relevance_score := 0.8,
         matched_text := (doc.content.drop i).take query.length,
         context := specContext doc.content i query.length,
         position := some (i, i + query.length) }]
  | none => []

/-- The specified LOCAL search output. -/
def localSearchSpec (query : Str) (documents : List (Uuid × Document))
    (max_results : Nat) : List SearchResult :=
  ((documents.flatMap
      (fun p => specTitleResults query p.1 p.2 ++ specContentResults query p.1 p.2)).filter
        (fun r => decide (r.relevance_score = 1)) ++
   (documents.flatMap
      (fun p => specTitleResults query p.1 p.2 ++ specContentResults query p.1 p.2)).filter
        (fun r => decide (r.relevance_score = 0.8))).take max_results

theorem rat_eight_lt_one : (0.8 : Rat) < 1 := by norm_num

/-- The spec's context wording computes exactly the code's context. -/
theorem specContext_eq_code (content : Str) (i qlen : Nat) :
    specContext content i qlen =
      (if min content.length (i + qlen + 50) < content.length then
         (if 0 < i - 50 then
            str "..." ++ (content.drop (i - 50)).take
              (min content.length (i + qlen + 50) - (i - 50))
          else (content.drop (i - 50)).take
              (min content.length (i + qlen + 50) - (i - 50))) ++ str "..."
       else
         (if 0 < i - 50 then
            str "..." ++ (content.drop (i - 50)).take
              (min content.length (i + qlen + 50) - (i - 50))
          else (content.drop (i - 50)).take
              (min content.length (i + qlen + 50) - (i - 50)))) := by
  have h1 : i - min 50 i = i - 50 := by omega
  have h2 : (min 50 i < i) = (0 < i - 50) := propext (by omega)
  simp only [specContext, h1, h2]

/-- Per document, the loop body of `_local_search` produces exactly the
specified title and content results. -/
theorem localDocResults_eq_spec (query : Str) (doc_id : Uuid)
    (doc : Document) :
    localDocResults (pyLower query) query doc_id doc =
      specTitleResults query doc_id doc ++ specContentResults query doc_id doc := by
  unfold localDocResults specTitleResults specContentResults
  cases hf : pyFind (pyLower doc.content) (pyLower query) with
  | none => simp [hf]
  | some i => simp [hf, specContext_eq_code]

/-- Every `_local_search` result carries one of the two fixed scores. -/
theorem localDocResults_scores (ql query : Str) (doc_id : Uuid)
    (doc : Document) :
    ∀ r ∈ localDocResults ql query doc_id doc,
      r.relevance_score = 1 ∨ r.relevance_score = 0.8 := by
  intro r hr
  unfold localDocResults at hr
  rcases List.mem_append.mp hr with h | h
  · split at h
    · simp at h
      subst h
      left
      rfl
    · simp at h
  · split at h
    · simp at h
      subst h
      right
      rfl
    · simp at h

/-- Inserting below a run of strictly larger scores. -/
theorem insertDesc_append_lt (r : SearchResult) (A B : List SearchResult)
    (hA : ∀ a ∈ A, r.relevance_score < a.relevance_score) :
    insertDesc r (A ++ B) = A ++ insertDesc r B := by
  induction A with
  | nil => simp
  | cons a as ih =>
      have ha := hA a (List.mem_cons_self a as)
      simp only [List.cons_append, insertDesc, List.append_eq,
                 if_neg (not_le.mpr ha)]
      rw [ih (fun x hx => hA x (List.mem_cons_of_mem a hx))]

/-- With only the two scores 1 and 0.8 present, the stable descending sort
is: the 1.0 entries in encounter order, then the 0.8 entries in encounter
order. -/
theorem sortDesc_two_scores (l : List SearchResult)
    (hl : ∀ r ∈ l, r.relevance_score = 1 ∨ r.relevance_score = 0.8) :
    sortDesc l =
      l.filter (fun r => decide (r.relevance_score = 1)) ++
      l.filter (fun r => decide (r.relevance_score = 0.8)) := by
  induction l with
  | nil => rfl
  | cons x xs ih =>
      have hxs : ∀ r ∈ xs, r.relevance_score = 1 ∨ r.relevance_score = 0.8 :=
        fun r hr => hl r (List.mem_cons_of_mem _ hr)
      have hx := hl x (List.mem_cons_self x xs)
      have hsort : sortDesc (x :: xs) = insertDesc x (sortDesc xs) := rfl
      rw [hsort, ih hxs]
      rcases hx with hx | hx
      · have hfront : insertDesc x
            (xs.filter (fun r => decide (r.relevance_score = 1)) ++
             xs.filter (fun r => decide (r.relevance_score = 0.8))) =
            x :: (xs.filter (fun r => decide (r.relevance_score = 1)) ++
                  xs.filter (fun r => decide (r.relevance_score = 0.8))) := by
          cases hAB : (xs.filter (fun r => decide (r.relevance_score = 1)) ++
              xs.filter (fun r => decide (r.relevance_score = 0.8))) with
          | nil => rfl
          | cons y ys =>
              have hy : y ∈ xs := by
                have hmem : y ∈ xs.filter (fun r => decide (r.relevance_score = 1)) ++
                    xs.filter (fun r => decide (r.relevance_score = 0.8)) := by
                  rw [hAB]
                  exact List.mem_cons_self y ys
                rcases List.mem_append.mp hmem with h | h <;>
                  exact List.mem_of_mem_filter h
              have hle : y.relevance_score ≤ x.relevance_score := by
                rcases hxs y hy with h | h <;> rw [h, hx]
                exact le_of_lt rat_eight_lt_one
              simp [insertDesc, hle]
        rw [hfront]
        have hf1 : decide (x.relevance_score = 1) = true := by
          rw [hx]
          exact decide_eq_true rfl
        have hf8 : decide (x.relevance_score = 0.8) = false := by
          rw [hx]
          exact decide_eq_false (by norm_num)
        rw [List.filter_cons, List.filter_cons, hf1, hf8]
        simp
      · have hlt : ∀ a ∈ xs.filter (fun r => decide (r.relevance_score = 1)),
            x.relevance_score < a.relevance_score := by
          intro a ha
          have h1 : a.relevance_score = 1 :=
            of_decide_eq_true (List.mem_filter.mp ha).2
          rw [h1, hx]
          exact rat_eight_lt_one
        rw [insertDesc_append_lt x _ _ hlt]
        have htail : insertDesc x
            (xs.filter (fun r => decide (r.relevance_score = 0.8))) =
            x :: xs.filter (fun r => decide (r.relevance_score = 0.8)) := by
          cases hB : xs.filter (fun r => decide (r.relevance_score = 0.8)) with
          | nil => rfl
          | cons y ys =>
              have hy8 : y.relevance_score = 0.8 := by
                have hmem : y ∈ xs.filter (fun r => decide (r.relevance_score = 0.8)) := by
                  rw [hB]
                  exact List.mem_cons_self y ys
                exact of_decide_eq_true (List.mem_filter.mp hmem).2
              have hle : y.relevance_score ≤ x.relevance_score := by
                rw [hy8, hx]
              simp [insertDesc, hle]
        rw [htail]
        have hf1 : decide (x.relevance_score = 1) = false := by
          rw [hx]
          exact decide_eq_false (by norm_num)
        have hf8 : decide (x.relevance_score = 0.8) = true := by
          rw [hx]
          exact decide_eq_true rfl
        rw [List.filter_cons, List.filter_cons, hf1, hf8]
        simp

/-- C6: `_local_search` computes exactly the specified output, for every
query, document collection and result cap. -/
theorem local_search_spec_correct (query : Str)
    (documents : List (Uuid × Document)) (max_results : Nat) :
    localSearch query documents max_results =
      localSearchSpec query documents max_results := by
  unfold localSearch localSearchSpec
  have hscores : ∀ r ∈ documents.flatMap
      (fun p => localDocResults (pyLower query) query p.1 p.2),
      r.relevance_score = 1 ∨ r.relevance_score = 0.8 := by
    intro r hr
    rcases List.mem_flatMap.mp hr with ⟨p, hp, hrp⟩
    exact localDocResults_scores (pyLower query) query p.1 p.2 r hrp
  rw [sortDesc_two_scores _ hscores]
  simp only [localDocResults_eq_spec]

/-! ## Claim C1: execute-then-undo round trips

The round-trip claim compares the entity graph per field — documents with
their titles, contents, file fields, tags, annotations and citations, and
each context's search results — but not the `updated_at`/`last_activity`
timestamps the mutation helpers refresh on both directions, and not the
filesystem or the uuid/clock supplies.  `strip` normalizes exactly those
excluded parts to a fixed value, so `w₁.strip = w₂.strip` says the two
worlds' entity graphs agree on every compared field. -/

/-- Zero the `updated_at` timestamp. -/
def Document.strip (d : Document) : Document := { d with updated_at := 0 }

/-- Zero timestamps throughout a context. -/
def DialogueContext.strip (c : DialogueContext) : DialogueContext :=
  { c with documents := c.documents.map (fun p => (p.1, Document.strip p.2)),
           last_activity := 0 }

/-- The entity graph of a world, with refreshed-on-both-directions
timestamps and the non-entity bookkeeping (filesystem, supplies)
normalized away. -/
def World.strip (w : World) : World :=
  { active_contexts :=
      w.active_contexts.map (fun p => (p.1, DialogueContext.strip p.2)),
    fs := [], uuidCtr := 0, clock := 0, writeFail := w.writeFail }

theorem assocGet_map {κ α β : Type} [DecidableEq κ] (f : α → β)
    (l : List (κ × α)) (k : κ) :
    assocGet (l.map (fun p => (p.1, f p.2))) k = (assocGet l k).map f := by
  induction l with
  | nil => rfl
  | cons p rest ih =>
      by_cases h : p.1 = k <;> simp [assocGet, h, ih]

theorem assocSet_map {κ α β : Type} [DecidableEq κ] (f : α → β)
    (l : List (κ × α)) (k : κ) (v : α) :
    (assocSet l k v).map (fun p => (p.1, f p.2)) =
      assocSet (l.map (fun p => (p.1, f p.2))) k (f v) := by
  induction l with
  | nil => simp [assocSet]
  | cons p rest ih =>
      by_cases h : p.1 = k <;> simp [assocSet, h, ih]

theorem assocDel_map {κ α β : Type} [DecidableEq κ] (f : α → β)
    (l : List (κ × α)) (k : κ) :
    (assocDel l k).map (fun p => (p.1, f p.2)) =
      assocDel (l.map (fun p => (p.1, f p.2))) k := by
  induction l with
  | nil => rfl
  | cons p rest ih =>
      by_cases h : p.1 = k <;> simp [assocDel, h, ih]

theorem strip_tick (w : World) : (w.tick).2.strip = w.strip := rfl

theorem strip_fs (w : World) (fs' : List (Str × Str)) :
    World.strip { w with fs := fs' } = w.strip := rfl

theorem strip_removeIfExists (w : World) (p? : Option Str) :
    (removeIfExists w p?).strip = w.strip := by
  rcases p? with _ | p
  · rfl
  · simp only [removeIfExists]
    split <;> rfl

theorem strip_put_context (w : World) (cid : Uuid) (ctx : DialogueContext) :
    (World.put_context w cid ctx).strip =
      { w.strip with
          active_contexts := assocSet w.strip.active_contexts cid ctx.strip } := by
  simp [World.put_context, World.strip, assocSet_map]

/-- Fields of a stripped document. -/
theorem Document.strip_def (d : Document) :
    d.strip = { d with updated_at := 0 } := rfl

/-! ### Well-behaved list removals used by the undo paths -/

theorem removeFirstAnnot_append (l : List Annot) (a : Annot) (aid : Uuid)
    (ha : a.id = aid) (h : ∀ x ∈ l, x.id ≠ aid) :
    removeFirstAnnot (l ++ [a]) aid = some l := by
  induction l with
  | nil => simp [removeFirstAnnot, ha]
  | cons x xs ih =>
      have hx := h x (List.mem_cons_self x xs)
      simp only [List.cons_append, removeFirstAnnot, List.append_eq, if_neg hx]
      rw [ih (fun y hy => h y (List.mem_cons_of_mem x hy))]
      rfl

theorem removeFirstCitation_append (l : List Citation) (c : Citation)
    (cid : Str) (hc : c.id = cid) (h : ∀ x ∈ l, x.id ≠ cid) :
    removeFirstCitation (l ++ [c]) cid = some l := by
  induction l with
  | nil => simp [removeFirstCitation, hc]
  | cons x xs ih =>
      have hx := h x (List.mem_cons_self x xs)
      simp only [List.cons_append, removeFirstCitation, List.append_eq, if_neg hx]
      rw [ih (fun y hy => h y (List.mem_cons_of_mem x hy))]
      rfl

/-- The freshness condition for adding a citation to the first annot with a
given id: that annot (if present) holds no citation with the new id. -/
def annCitFresh : List Annot → Uuid → Str → Bool
  | [], _, _ => true
  | a :: rest, aid, cid =>
      if a.id = aid then a.citations.all (fun c0 => decide (c0.id ≠ cid))
      else annCitFresh rest aid cid

theorem popCit_addCit (l : List Annot) (aid : Uuid) (cit : Citation)
    (hfresh : annCitFresh l aid cit.id = true) :
    ∀ l₁, addCitToFirstAnnot l aid cit = some l₁ →
      popCitFromAnnots l₁ aid cit.id = some l := by
  induction l with
  | nil => intro l₁ h; simp [addCitToFirstAnnot] at h
  | cons a rest ih =>
      intro l₁ h
      by_cases ha : a.id = aid
      · simp only [addCitToFirstAnnot, if_pos ha, Option.some.injEq] at h
        subst h
        simp only [annCitFresh, if_pos ha] at hfresh
        have hfr : ∀ x ∈ a.citations, x.id ≠ cit.id := by
          intro x hx
          exact of_decide_eq_true (List.all_eq_true.mp hfresh x hx)
        simp only [popCitFromAnnots, if_pos ha]
        rw [removeFirstCitation_append a.citations cit cit.id rfl hfr]
      · simp only [addCitToFirstAnnot, if_neg ha] at h
        cases hrec : addCitToFirstAnnot rest aid cit with
        | none =>
            rw [hrec] at h
            exact absurd h (by simp)
        | some l₂ =>
            rw [hrec] at h
            have h' : a :: l₂ = l₁ := by simpa using h
            subst h'
            simp only [annCitFresh, if_neg ha] at hfresh
            simp only [popCitFromAnnots, if_neg ha]
            rw [ih hfresh l₂ hrec]
            rfl

/-! ### Side conditions under which every command inverts exactly -/

/-- The per-command side conditions of the amended round-trip claim,
evaluated in the state the command executes in:
* `AddDocumentCommand`: the added document's id is not already a key of
  the target context (otherwise the displaced document is lost);
* `CreateDocumentCommand` / `AddAnnotationCommand`: the freshly drawn uuid
  does not collide with an id already in the target (automatic for real
  `uuid4` draws; explicit here because the model makes the supply
  concrete);
* `UpdateDocumentCommand` with a file payload: the stored path computed
  for the new file differs from the document's current path (otherwise
  the undo does not restore the old name/type/size);
* `RemoveAnnotationCommand`: the removed annot is the document's last
  (undo re-appends at the end, not at the original index);
* `AddCitationCommand`: the target's citation list holds no citation with
  the new content-hash id (undo pops the first match);
* `AddTagCommand`: the tag is not already on the document (undo removes
  it unconditionally);
* `SearchDocumentsCommand` for a query with no stored results: the
  command's `previous_results` snapshot still has its `None` initial
  value (as set by `__init__`). -/
def sideOK (c : Cmd) (w : World) : Bool :=
  match c with
  | Cmd.AddDocumentCommand cid d =>
      match World.get_context w cid with
      | some ctx => (assocGet ctx.documents d.id).isNone
      | none => true
  | Cmd.CreateDocumentCommand cid _ _ _ _ _ _ _ _ =>
      match World.get_context w cid with
      | some ctx => (assocGet ctx.documents w.uuidCtr).isNone
      | none => true
  | Cmd.UpdateDocumentCommand cid did _ _ file file_name _ _ _ _ _ _ _ _ _ =>
      match World.get_context w cid with
      | some ctx =>
          match DialogueContext.get_document ctx did with
          | some d =>
              if file.truthy && optStrTruthy file_name then
                decide (d.file_path ≠
                  some (uploadPath d.id (secure_filename (file_name.getD []))))
              else true
          | none => true
      | none => true
  | Cmd.AddAnnotationCommand cid did _ _ _ _ _ _ _ =>
      match World.get_context w cid with
      | some ctx =>
          match DialogueContext.get_document ctx did with
          | some d => d.annotations.all (fun a => decide (a.id ≠ w.uuidCtr))
          | none => true
      | none => true
  | Cmd.RemoveAnnotationCommand cid did aid _ =>
      match World.get_context w cid with
      | some ctx =>
          match DialogueContext.get_document ctx did with
          | some d =>
              match d.annotations.getLast? with
              | some a => decide (a.id = aid) &&
                  d.annotations.dropLast.all (fun x => decide (x.id ≠ aid))
              | none => true
          | none => true
      | none => true
  | Cmd.AddCitationCommand cid did text source page sec url annot_id _ =>
      match World.get_context w cid with
      | some ctx =>
          match DialogueContext.get_document ctx did with
          | some d =>
              match annot_id with
              | none => d.citations.all (fun c0 =>
                  decide (c0.id ≠
                    (DocumentService.create_citation w text source page sec url).1.id))
              | some aid => annCitFresh d.annotations aid
                  (DocumentService.create_citation w text source page sec url).1.id
          | none => true
      | none => true
  | Cmd.AddTagCommand cid did tag =>
      match World.get_context w cid with
      | some ctx =>
          match DialogueContext.get_document ctx did with
          | some d => decide (tag ∉ d.tags)
          | none => true
      | none => true
  | Cmd.RemoveTagCommand _ _ _ _ => true
  | Cmd.SearchDocumentsCommand cid query _ _ _ prevField =>
      match World.get_context w cid with
      | some ctx =>
          (assocGet ctx.active_search_results query).isSome || prevField.isNone
      | none => true

/-! ### Strip-equality: transported lookups and normal forms -/

theorem stripEq_contexts {w w' : World} (hs : w.strip = w'.strip) (cid : Uuid) :
    (assocGet w.active_contexts cid).map DialogueContext.strip =
    (assocGet w'.active_contexts cid).map DialogueContext.strip := by
  have hc := congrArg World.active_contexts hs
  simp only [World.strip] at hc
  rw [← assocGet_map, ← assocGet_map, hc]

theorem stripEq_writeFail {w w' : World} (hs : w.strip = w'.strip) :
    w.writeFail = w'.writeFail := by
  have hc := congrArg World.writeFail hs
  simpa only [World.strip] using hc

theorem ctxStripEq_documents {c c' : DialogueContext} (hs : c.strip = c'.strip)
    (did : Uuid) :
    (assocGet c.documents did).map Document.strip =
    (assocGet c'.documents did).map Document.strip := by
  have hd := congrArg DialogueContext.documents hs
  simp only [DialogueContext.strip] at hd
  rw [← assocGet_map, ← assocGet_map, hd]

theorem ctxStripEq_results {c c' : DialogueContext} (hs : c.strip = c'.strip) :
    c.active_search_results = c'.active_search_results := by
  have hr := congrArg DialogueContext.active_search_results hs
  simpa only [DialogueContext.strip] using hr

theorem strip_clock (w : World) (n : Time) :
    World.strip { w with clock := n } = w.strip := rfl

theorem strip_uuid (w : World) (n : Nat) :
    World.strip { w with uuidCtr := n } = w.strip := rfl

theorem strip_putDoc (w : World) (cid : Uuid) (ctx : DialogueContext)
    (did : Uuid) (d : Document) :
    (putDoc w cid ctx did d).strip =
      { w.strip with
          active_contexts := assocSet w.strip.active_contexts cid
            { ctx.strip with
                documents := assocSet ctx.strip.documents did d.strip } } := by
  simp [putDoc, strip_put_context, DialogueContext.strip, assocSet_map]

/-- Strip commutes with the tag/annot/citation field updates. -/
theorem strip_set_tags (d : Document) (X : Finset Str) (t : Time) :
    Document.strip { d with tags := X, updated_at := t } =
      { d.strip with tags := X } := rfl

theorem strip_set_annots (d : Document) (X : List Annot) (t : Time) :
    Document.strip { d with annotations := X, updated_at := t } =
      { d.strip with annotations := X } := rfl

theorem strip_set_cits (d : Document) (X : List Citation) (t : Time) :
    Document.strip { d with citations := X, updated_at := t } =
      { d.strip with citations := X } := rfl

theorem strip_tags_proj (d : Document) : d.strip.tags = d.tags := rfl

theorem strip_annots_proj (d : Document) :
    d.strip.annotations = d.annotations := rfl

theorem strip_cits_proj (d : Document) : d.strip.citations = d.citations := rfl

/-- Normal forms of the entity helpers through `strip`: result flag and
stripped result expressed as functions of the stripped input. -/
theorem remove_tag_strip (t : Time) (d : Document) (tag : Str) :
    (Document.remove_tag t d tag).1 = decide (tag ∈ d.strip.tags) ∧
    (Document.remove_tag t d tag).2.strip =
      (if tag ∈ d.strip.tags then
        { d.strip with tags := d.strip.tags.erase tag }
       else d.strip) := by
  unfold Document.remove_tag
  by_cases h : tag ∈ d.tags
  · have h' : tag ∈ d.strip.tags := h
    simp [h, h', strip_set_tags, strip_tags_proj]
  · have h' : tag ∉ d.strip.tags := h
    simp [h, h']

theorem add_tag_strip (t : Time) (d : Document) (tag : Str) :
    (Document.add_tag t d tag).strip =
      { d.strip with tags := insert tag d.strip.tags } := rfl

theorem add_annot_strip (t : Time) (d : Document) (a : Annot) :
    (Document.add_annot t d a).strip =
      { d.strip with annotations := d.strip.annotations ++ [a] } := rfl

theorem remove_annot_strip (t : Time) (d : Document) (aid : Uuid) :
    (Document.remove_annot t d aid).1 =
      (removeFirstAnnot d.strip.annotations aid).isSome ∧
    (Document.remove_annot t d aid).2.strip =
      (match removeFirstAnnot d.strip.annotations aid with
       | some l => { d.strip with annotations := l }
       | none => d.strip) := by
  unfold Document.remove_annot
  have he : removeFirstAnnot d.annotations aid =
      removeFirstAnnot d.strip.annotations aid := rfl
  cases hr : removeFirstAnnot d.strip.annotations aid with
  | none => rw [he, hr]; simp
  | some l => rw [he, hr]; simp [strip_set_annots]

theorem remove_citation_strip (t : Time) (d : Document) (cid : Str) :
    (Document.remove_citation t d cid).1 =
      (removeFirstCitation d.strip.citations cid).isSome ∧
    (Document.remove_citation t d cid).2.strip =
      (match removeFirstCitation d.strip.citations cid with
       | some l => { d.strip with citations := l }
       | none => d.strip) := by
  unfold Document.remove_citation
  have he : removeFirstCitation d.citations cid =
      removeFirstCitation d.strip.citations cid := rfl
  cases hr : removeFirstCitation d.strip.citations cid with
  | none => rw [he, hr]; simp
  | some l => rw [he, hr]; simp [strip_set_cits]

theorem add_citation_strip (t : Time) (d : Document) (c : Citation) :
    (Document.add_citation t d c).strip =
      { d.strip with citations := d.strip.citations ++ [c] } := rfl

theorem remove_document_strip (t : Time) (ctx : DialogueContext) (did : Uuid) :
    (DialogueContext.remove_document t ctx did).1 =
      (assocGet ctx.strip.documents did).isSome ∧
    (DialogueContext.remove_document t ctx did).2.strip =
      (if (assocGet ctx.strip.documents did).isSome then
        { ctx.strip with documents := assocDel ctx.strip.documents did }
       else ctx.strip) := by
  have he : (assocGet ctx.strip.documents did).isSome =
      (assocGet ctx.documents did).isSome := by
    show (assocGet (ctx.documents.map (fun p => (p.1, Document.strip p.2))) did).isSome = _
    rw [assocGet_map]
    cases assocGet ctx.documents did <;> rfl
  unfold DialogueContext.remove_document
  rw [he]
  cases hb : (assocGet ctx.documents did).isSome with
  | true =>
      simp only [hb, if_true]
      refine ⟨trivial, ?_⟩
      show DialogueContext.strip _ = _
      simp [DialogueContext.strip, assocDel_map]
  | false =>
      simp [hb]

theorem add_document_strip (t : Time) (ctx : DialogueContext) (d : Document) :
    (DialogueContext.add_document t ctx d).strip =
      { ctx.strip with
          documents := assocSet ctx.strip.documents d.id d.strip } := by
  simp [DialogueContext.add_document, DialogueContext.strip, assocSet_map]

/-- The shared shape of the document-level undo paths: look up context and
document, apply a per-document action at the current time, store back. -/
def docUndoStep (cid did : Uuid) (F : Time → Document → Bool × Document)
    (w : World) : Bool × World :=
  match World.get_context w cid with
  | some ctx =>
      match DialogueContext.get_document ctx did with
      | some document =>
          ((F w.tick.1 document).1,
           putDoc w.tick.2 cid ctx did (F w.tick.1 document).2)
      | none => (false, w)
  | none => (false, w)

/-- Congruence of `docUndoStep` under strip-equality, given congruence of
the per-document action. -/
theorem docUndoStep_stripEq (cid did : Uuid)
    (F : Time → Document → Bool × Document)
    (hF : ∀ (t t' : Time) (d d' : Document), d.strip = d'.strip →
      (F t d).1 = (F t' d').1 ∧ (F t d).2.strip = (F t' d').2.strip)
    (w w' : World) (hs : w.strip = w'.strip) :
    (docUndoStep cid did F w).1 = (docUndoStep cid did F w').1 ∧
    (docUndoStep cid did F w).2.strip = (docUndoStep cid did F w').2.strip := by
  have hget := stripEq_contexts hs cid
  cases hc : assocGet w.active_contexts cid with
  | none =>
      cases hc2 : assocGet w'.active_contexts cid with
      | none => simp [docUndoStep, World.get_context, hc, hc2, hs]
      | some x => rw [hc, hc2] at hget; simp at hget
  | some ctx =>
      cases hc2 : assocGet w'.active_contexts cid with
      | none => rw [hc, hc2] at hget; simp at hget
      | some ctx' =>
          have hctx : ctx.strip = ctx'.strip := by
            rw [hc, hc2] at hget
            simpa using hget
          have hdget := ctxStripEq_documents hctx did
          cases hd : assocGet ctx.documents did with
          | none =>
              cases hd2 : assocGet ctx'.documents did with
              | none =>
                  simp [docUndoStep, World.get_context,
                        DialogueContext.get_document, hc, hc2, hd, hd2, hs]
              | some x => rw [hd, hd2] at hdget; simp at hdget
          | some d =>
              cases hd2 : assocGet ctx'.documents did with
              | none => rw [hd, hd2] at hdget; simp at hdget
              | some d' =>
                  have hdoc : d.strip = d'.strip := by
                    rw [hd, hd2] at hdget
                    simpa using hdget
                  obtain ⟨hb, hstr⟩ := hF w.tick.1 w'.tick.1 d d' hdoc
                  constructor
                  · simp [docUndoStep, World.get_context,
                          DialogueContext.get_document, hc, hc2, hd, hd2, hb]
                  · simp only [docUndoStep, World.get_context,
                               DialogueContext.get_document, hc, hc2, hd, hd2]
                    rw [strip_putDoc, strip_putDoc]
                    have ht : w.tick.2.strip = w'.tick.2.strip := by
                      rw [strip_tick, strip_tick, hs]
                    rw [ht, hstr, hctx]

/-- Variant of `docUndoStep` whose action may fail without touching the
world (the annotation-target citation undo). -/
def docUndoStepOpt (cid did : Uuid) (G : Document → Option Document)
    (w : World) : Bool × World :=
  match World.get_context w cid with
  | some ctx =>
      match DialogueContext.get_document ctx did with
      | some document =>
          match G document with
          | some d1 =>
              (true, putDoc w.tick.2 cid ctx did { d1 with updated_at := w.tick.1 })
          | none => (false, w)
      | none => (false, w)
  | none => (false, w)

theorem docUndoStepOpt_stripEq (cid did : Uuid) (G : Document → Option Document)
    (hG : ∀ d d', d.strip = d'.strip →
      (G d).map Document.strip = (G d').map Document.strip)
    (w w' : World) (hs : w.strip = w'.strip) :
    (docUndoStepOpt cid did G w).1 = (docUndoStepOpt cid did G w').1 ∧
    (docUndoStepOpt cid did G w).2.strip = (docUndoStepOpt cid did G w').2.strip := by
  have hget := stripEq_contexts hs cid
  cases hc : assocGet w.active_contexts cid with
  | none =>
      cases hc2 : assocGet w'.active_contexts cid with
      | none => simp [docUndoStepOpt, World.get_context, hc, hc2, hs]
      | some x => rw [hc, hc2] at hget; simp at hget
  | some ctx =>
      cases hc2 : assocGet w'.active_contexts cid with
      | none => rw [hc, hc2] at hget; simp at hget
      | some ctx' =>
          have hctx : ctx.strip = ctx'.strip := by
            rw [hc, hc2] at hget
            simpa using hget
          have hdget := ctxStripEq_documents hctx did
          cases hd : assocGet ctx.documents did with
          | none =>
              cases hd2 : assocGet ctx'.documents did with
              | none =>
                  simp [docUndoStepOpt, World.get_context,
                        DialogueContext.get_document, hc, hc2, hd, hd2, hs]
              | some x => rw [hd, hd2] at hdget; simp at hdget
          | some d =>
              cases hd2 : assocGet ctx'.documents did with
              | none => rw [hd, hd2] at hdget; simp at hdget
              | some d' =>
                  have hdoc : d.strip = d'.strip := by
                    rw [hd, hd2] at hdget
                    simpa using hdget
                  have hGd := hG d d' hdoc
                  cases hg : G d with
                  | none =>
                      cases hg2 : G d' with
                      | none =>
                          simp [docUndoStepOpt, World.get_context,
                                DialogueContext.get_document, hc, hc2, hd, hd2,
                                hg, hg2, hs]
                      | some x => rw [hg, hg2] at hGd; simp at hGd
                  | some d1 =>
                      cases hg2 : G d' with
                      | none => rw [hg, hg2] at hGd; simp at hGd
                      | some d1' =>
                          have hstr : d1.strip = d1'.strip := by
                            rw [hg, hg2] at hGd
                            simpa using hGd
                          constructor
                          · simp [docUndoStepOpt, World.get_context,
                                  DialogueContext.get_document, hc, hc2, hd,
                                  hd2, hg, hg2]
                          · simp only [docUndoStepOpt, World.get_context,
                                       DialogueContext.get_document, hc, hc2,
                                       hd, hd2, hg, hg2]
                            rw [strip_putDoc, strip_putDoc]
                            have ht : w.tick.2.strip = w'.tick.2.strip := by
                              rw [strip_tick, strip_tick, hs]
                            have hu : Document.strip { d1 with updated_at := w.tick.1 } =
                                Document.strip { d1' with updated_at := w'.tick.1 } := by
                              show d1.strip = d1'.strip
                              exact hstr
                            rw [ht, hu, hctx]

theorem strip_ctx_results (ctx : DialogueContext)
    (X : List (Str × List SearchResult)) :
    DialogueContext.strip { ctx with active_search_results := X } =
      { ctx.strip with active_search_results := X } := rfl

theorem strip_ctx_results_tl (ctx : DialogueContext)
    (X : List (Str × List SearchResult)) (t : Time) :
    DialogueContext.strip
        { ctx with active_search_results := X, last_activity := t } =
      { ctx.strip with active_search_results := X } := rfl

/-! ### Strip congruence of each command's undo -/

theorem undo_stripEq_addTag (cid did : Uuid) (tag : Str) (w w' : World)
    (hs : w.strip = w'.strip) :
    (Cmd.undo (Cmd.AddTagCommand cid did tag) w).1 =
      (Cmd.undo (Cmd.AddTagCommand cid did tag) w').1 ∧
    (Cmd.undo (Cmd.AddTagCommand cid did tag) w).2.strip =
      (Cmd.undo (Cmd.AddTagCommand cid did tag) w').2.strip := by
  have hb : ∀ ww : World, Cmd.undo (Cmd.AddTagCommand cid did tag) ww =
      docUndoStep cid did (fun t d => Document.remove_tag t d tag) ww :=
    fun ww => rfl
  rw [hb w, hb w']
  refine docUndoStep_stripEq cid did _ (fun t t' d d' hd => ?_) w w' hs
  obtain ⟨h1, h2⟩ := remove_tag_strip t d tag
  obtain ⟨h1', h2'⟩ := remove_tag_strip t' d' tag
  exact ⟨by rw [h1, h1', hd], by rw [h2, h2', hd]⟩

theorem undo_stripEq_removeTag (cid did : Uuid) (tag : Str) (was : Bool)
    (w w' : World) (hs : w.strip = w'.strip) :
    (Cmd.undo (Cmd.RemoveTagCommand cid did tag was) w).1 =
      (Cmd.undo (Cmd.RemoveTagCommand cid did tag was) w').1 ∧
    (Cmd.undo (Cmd.RemoveTagCommand cid did tag was) w).2.strip =
      (Cmd.undo (Cmd.RemoveTagCommand cid did tag was) w').2.strip := by
  cases was with
  | false => exact ⟨rfl, hs⟩
  | true =>
      have hb : ∀ ww : World, Cmd.undo (Cmd.RemoveTagCommand cid did tag true) ww =
          docUndoStep cid did (fun t d => (true, Document.add_tag t d tag)) ww :=
        fun ww => rfl
      rw [hb w, hb w']
      refine docUndoStep_stripEq cid did _ (fun t t' d d' hd => ?_) w w' hs
      refine ⟨rfl, ?_⟩
      show (Document.add_tag t d tag).strip = (Document.add_tag t' d' tag).strip
      rw [add_tag_strip, add_tag_strip, hd]

theorem undo_stripEq_addAnnot (cid did : Uuid) (ty : AnnotType) (tx : Str)
    (pos : List (Str × PosVal)) (uid : Option Uuid) (col : Option Str)
    (cits : Option (List Citation)) (ann : Option Annot) (w w' : World)
    (hs : w.strip = w'.strip) :
    (Cmd.undo (Cmd.AddAnnotationCommand cid did ty tx pos uid col cits ann) w).1 =
      (Cmd.undo (Cmd.AddAnnotationCommand cid did ty tx pos uid col cits ann) w').1 ∧
    (Cmd.undo (Cmd.AddAnnotationCommand cid did ty tx pos uid col cits ann) w).2.strip =
      (Cmd.undo (Cmd.AddAnnotationCommand cid did ty tx pos uid col cits ann) w').2.strip := by
  cases ann with
  | none => exact ⟨rfl, hs⟩
  | some a =>
      have hb : ∀ ww : World,
          Cmd.undo (Cmd.AddAnnotationCommand cid did ty tx pos uid col cits (some a)) ww =
          docUndoStep cid did (fun t d => Document.remove_annot t d a.id) ww :=
        fun ww => rfl
      rw [hb w, hb w']
      refine docUndoStep_stripEq cid did _ (fun t t' d d' hd => ?_) w w' hs
      obtain ⟨h1, h2⟩ := remove_annot_strip t d a.id
      obtain ⟨h1', h2'⟩ := remove_annot_strip t' d' a.id
      exact ⟨by rw [h1, h1', hd], by rw [h2, h2', hd]⟩

theorem undo_stripEq_removeAnnot (cid did aid : Uuid) (ann : Option Annot)
    (w w' : World) (hs : w.strip = w'.strip) :
    (Cmd.undo (Cmd.RemoveAnnotationCommand cid did aid ann) w).1 =
      (Cmd.undo (Cmd.RemoveAnnotationCommand cid did aid ann) w').1 ∧
    (Cmd.undo (Cmd.RemoveAnnotationCommand cid did aid ann) w).2.strip =
      (Cmd.undo (Cmd.RemoveAnnotationCommand cid did aid ann) w').2.strip := by
  cases ann with
  | none => exact ⟨rfl, hs⟩
  | some a =>
      have hb : ∀ ww : World,
          Cmd.undo (Cmd.RemoveAnnotationCommand cid did aid (some a)) ww =
          docUndoStep cid did (fun t d => (true, Document.add_annot t d a)) ww :=
        fun ww => rfl
      rw [hb w, hb w']
      refine docUndoStep_stripEq cid did _ (fun t t' d d' hd => ?_) w w' hs
      refine ⟨rfl, ?_⟩
      show (Document.add_annot t d a).strip = (Document.add_annot t' d' a).strip
      rw [add_annot_strip, add_annot_strip, hd]

theorem undo_stripEq_addCitation (cid did : Uuid) (tx src : Str)
    (page : Option Int) (sec url : Option Str) (annId : Option Uuid)
    (cit : Option Citation) (w w' : World) (hs : w.strip = w'.strip) :
    (Cmd.undo (Cmd.AddCitationCommand cid did tx src page sec url annId cit) w).1 =
      (Cmd.undo (Cmd.AddCitationCommand cid did tx src page sec url annId cit) w').1 ∧
    (Cmd.undo (Cmd.AddCitationCommand cid did tx src page sec url annId cit) w).2.strip =
      (Cmd.undo (Cmd.AddCitationCommand cid did tx src page sec url annId cit) w').2.strip := by
  cases cit with
  | none => exact ⟨rfl, hs⟩
  | some c0 =>
      cases annId with
      | none =>
          have hb : ∀ ww : World,
              Cmd.undo (Cmd.AddCitationCommand cid did tx src page sec url none (some c0)) ww =
              docUndoStep cid did (fun t d => Document.remove_citation t d c0.id) ww :=
            fun ww => rfl
          rw [hb w, hb w']
          refine docUndoStep_stripEq cid did _ (fun t t' d d' hd => ?_) w w' hs
          obtain ⟨h1, h2⟩ := remove_citation_strip t d c0.id
          obtain ⟨h1', h2'⟩ := remove_citation_strip t' d' c0.id
          exact ⟨by rw [h1, h1', hd], by rw [h2, h2', hd]⟩
      | some aid =>
          have hb : ∀ ww : World,
              Cmd.undo (Cmd.AddCitationCommand cid did tx src page sec url (some aid) (some c0)) ww =
              docUndoStepOpt cid did
                (fun d => (popCitFromAnnots d.annotations aid c0.id).map
                  (fun l => { d with annotations := l })) ww := by
            intro ww
            cases hC : World.get_context ww cid with
            | none => simp [Cmd.undo, docUndoStepOpt, hC]
            | some ctx =>
                cases hD : DialogueContext.get_document ctx did with
                | none => simp [Cmd.undo, docUndoStepOpt, hC, hD]
                | some d =>
                    cases hP : popCitFromAnnots d.annotations aid c0.id with
                    | none => simp [Cmd.undo, docUndoStepOpt, hC, hD, hP]
                    | some l => simp [Cmd.undo, docUndoStepOpt, hC, hD, hP]
          rw [hb w, hb w']
          refine docUndoStepOpt_stripEq cid did _ (fun d d' hd => ?_) w w' hs
          have he : d.annotations = d'.annotations := by
            have := congrArg Document.annotations hd
            simpa only [Document.strip] using this
          rw [he]
          cases popCitFromAnnots d'.annotations aid c0.id with
          | none => rfl
          | some l =>
              simp only [Option.map_some']
              show some (Document.strip { d with annotations := l }) =
                some (Document.strip { d' with annotations := l })
              have h1 : Document.strip { d with annotations := l } =
                  { d.strip with annotations := l } := rfl
              have h2 : Document.strip { d' with annotations := l } =
                  { d'.strip with annotations := l } := rfl
              rw [h1, h2, hd]

theorem strip_set_updated (d : Document) (t : Time) :
    Document.strip { d with updated_at := t } = d.strip := rfl

theorem strip_set_files (d : Document) (p n ty : Option Str) (sz : Option Nat) :
    Document.strip { d with file_path := p, file_name := n, file_type := ty,
                            file_size := sz } =
      { d.strip with file_path := p, file_name := n, file_type := ty,
                     file_size := sz } := rfl

theorem strip_set_tct (d : Document) (t c : Str) (tg : Finset Str) :
    Document.strip { d with title := t, content := c, tags := tg } =
      { d.strip with title := t, content := c, tags := tg } := rfl

theorem strip_file_path_proj (d : Document) :
    d.strip.file_path = d.file_path := rfl

theorem strip_title_proj (d : Document) : d.strip.title = d.title := rfl

theorem strip_content_proj (d : Document) : d.strip.content = d.content := rfl

theorem strip_ctx_la (ctx : DialogueContext) (t : Time) :
    DialogueContext.strip { ctx with last_activity := t } = ctx.strip := rfl

theorem put_context_stripEq {w w' : World} (hs : w.strip = w'.strip)
    (cid : Uuid) {c c' : DialogueContext} (hc : c.strip = c'.strip) :
    (World.put_context w cid c).strip = (World.put_context w' cid c').strip := by
  rw [strip_put_context, strip_put_context, hs, hc]

theorem undo_stripEq_addDocument (cid : Uuid) (d : Document) (w w' : World)
    (hs : w.strip = w'.strip) :
    (Cmd.undo (Cmd.AddDocumentCommand cid d) w).1 =
      (Cmd.undo (Cmd.AddDocumentCommand cid d) w').1 ∧
    (Cmd.undo (Cmd.AddDocumentCommand cid d) w).2.strip =
      (Cmd.undo (Cmd.AddDocumentCommand cid d) w').2.strip := by
  have hget := stripEq_contexts hs cid
  cases hc : assocGet w.active_contexts cid with
  | none =>
      cases hc2 : assocGet w'.active_contexts cid with
      | none =>
          refine ⟨?_, ?_⟩ <;>
            simp [Cmd.undo, World.get_context, hc, hc2, hs]
      | some x => rw [hc, hc2] at hget; simp at hget
  | some ctx =>
      cases hc2 : assocGet w'.active_contexts cid with
      | none => rw [hc, hc2] at hget; simp at hget
      | some ctx' =>
          have hctx : ctx.strip = ctx'.strip := by
            rw [hc, hc2] at hget
            simpa using hget
          obtain ⟨hb1, hb2⟩ := remove_document_strip w.tick.1 ctx d.id
          obtain ⟨hb1', hb2'⟩ := remove_document_strip w'.tick.1 ctx' d.id
          constructor
          · simp only [Cmd.undo, World.get_context, hc, hc2]
            rw [hb1, hb1', hctx]
          · simp only [Cmd.undo, World.get_context, hc, hc2]
            apply put_context_stripEq (by rw [strip_tick, strip_tick, hs])
            rw [hb2, hb2', hctx]

theorem undo_stripEq_createDocument (cid : Uuid) (title content : Str)
    (md : Option (List (Str × Str))) (file : FileArg)
    (fname ftype : Option Str) (tg : Option (Finset Str))
    (docField : Option Document) (w w' : World) (hs : w.strip = w'.strip) :
    (Cmd.undo (Cmd.CreateDocumentCommand cid title content md file fname ftype
        tg docField) w).1 =
      (Cmd.undo (Cmd.CreateDocumentCommand cid title content md file fname
        ftype tg docField) w').1 ∧
    (Cmd.undo (Cmd.CreateDocumentCommand cid title content md file fname ftype
        tg docField) w).2.strip =
      (Cmd.undo (Cmd.CreateDocumentCommand cid title content md file fname
        ftype tg docField) w').2.strip := by
  cases docField with
  | none => exact ⟨rfl, hs⟩
  | some doc =>
      have hget := stripEq_contexts hs cid
      cases hc : assocGet w.active_contexts cid with
      | none =>
          cases hc2 : assocGet w'.active_contexts cid with
          | none =>
              refine ⟨?_, ?_⟩ <;>
                simp [Cmd.undo, World.get_context, hc, hc2, hs]
          | some x => rw [hc, hc2] at hget; simp at hget
      | some ctx =>
          cases hc2 : assocGet w'.active_contexts cid with
          | none => rw [hc, hc2] at hget; simp at hget
          | some ctx' =>
              have hctx : ctx.strip = ctx'.strip := by
                rw [hc, hc2] at hget
                simpa using hget
              obtain ⟨hb1, hb2⟩ := remove_document_strip
                (removeIfExists w ((DialogueContext.get_document ctx doc.id).getD doc).file_path).tick.1
                ctx doc.id
              obtain ⟨hb1', hb2'⟩ := remove_document_strip
                (removeIfExists w' ((DialogueContext.get_document ctx' doc.id).getD doc).file_path).tick.1
                ctx' doc.id
              constructor
              · simp only [Cmd.undo, World.get_context, hc, hc2]
                rw [hb1, hb1', hctx]
              · simp only [Cmd.undo, World.get_context, hc, hc2]
                apply put_context_stripEq
                  (by rw [strip_tick, strip_tick, strip_removeIfExists,
                          strip_removeIfExists, hs])
                rw [hb2, hb2', hctx]

/-- The strip-level effect of `UpdateDocumentCommand.undo` on the target
document. -/
def updateUndoDocStrip (file : FileArg) (ot oc ofp ofn oft : Option Str)
    (ofs : Option Nat) (otg : Option (Finset Str)) (s : Document) : Document :=
  let s1 := if file.truthy && !(s.file_path == ofp) then
      { s with file_path := ofp, file_name := ofn, file_type := oft,
               file_size := ofs }
    else s
  { s1 with title := ot.getD s1.title, content := oc.getD s1.content,
            tags := otg.getD s1.tags }

theorem update_undo_normal (cid did : Uuid) (title content : Option Str)
    (file : FileArg) (fname ftype : Option Str) (tg : Option (Finset Str))
    (ot oc ofp ofn oft : Option Str) (ofs : Option Nat)
    (otg : Option (Finset Str)) (w : World) (ctx : DialogueContext)
    (document : Document)
    (hc : assocGet w.active_contexts cid = some ctx)
    (hd : assocGet ctx.documents did = some document) :
    (Cmd.undo (Cmd.UpdateDocumentCommand cid did title content file fname ftype
        tg ot oc ofp ofn oft ofs otg) w).1 = true ∧
    (Cmd.undo (Cmd.UpdateDocumentCommand cid did title content file fname ftype
        tg ot oc ofp ofn oft ofs otg) w).2.strip =
      { w.strip with
          active_contexts := assocSet w.strip.active_contexts cid
            { ctx.strip with
                documents := assocSet ctx.strip.documents did
                  (updateUndoDocStrip file ot oc ofp ofn oft ofs otg
                    document.strip) } } := by
  by_cases hb : (file.truthy && !(document.file_path == ofp)) = true
  · constructor
    · simp [Cmd.undo, World.get_context, DialogueContext.get_document, hc, hd, hb]
    · simp only [Cmd.undo, World.get_context, DialogueContext.get_document,
                 hc, hd]
      rw [if_pos hb]
      rw [strip_putDoc]
      rw [strip_tick, strip_removeIfExists]
      have hgoal : Document.strip
          { id := document.id,
            title := ot.getD document.title, content := oc.getD document.content,
            file_path := ofp, file_name := ofn, file_type := oft, file_size := ofs,
            metadata := document.metadata, annotations := document.annotations,
            citations := document.citations, comments := document.comments,
            tags := otg.getD document.tags, created_at := document.created_at,
            updated_at := (removeIfExists w document.file_path).tick.1,
            embedding := document.embedding, is_indexed := document.is_indexed } =
          updateUndoDocStrip file ot oc ofp ofn oft ofs otg document.strip := by
        simp [updateUndoDocStrip, Document.strip, strip_file_path_proj, hb]
      rw [← hgoal]
  · constructor
    · simp [Cmd.undo, World.get_context, DialogueContext.get_document, hc, hd, hb]
    · simp only [Cmd.undo, World.get_context, DialogueContext.get_document,
                 hc, hd]
      rw [if_neg hb]
      rw [strip_putDoc]
      rw [strip_tick]
      have hgoal : Document.strip
          { id := document.id,
            title := ot.getD document.title, content := oc.getD document.content,
            file_path := document.file_path, file_name := document.file_name,
            file_type := document.file_type, file_size := document.file_size,
            metadata := document.metadata, annotations := document.annotations,
            citations := document.citations, comments := document.comments,
            tags := otg.getD document.tags, created_at := document.created_at,
            updated_at := w.tick.1,
            embedding := document.embedding, is_indexed := document.is_indexed } =
          updateUndoDocStrip file ot oc ofp ofn oft ofs otg document.strip := by
        simp [updateUndoDocStrip, Document.strip, strip_file_path_proj, hb]
      rw [← hgoal]

theorem undo_stripEq_update (cid did : Uuid) (title content : Option Str)
    (file : FileArg) (fname ftype : Option Str) (tg : Option (Finset Str))
    (ot oc ofp ofn oft : Option Str) (ofs : Option Nat)
    (otg : Option (Finset Str)) (w w' : World) (hs : w.strip = w'.strip) :
    (Cmd.undo (Cmd.UpdateDocumentCommand cid did title content file fname ftype
        tg ot oc ofp ofn oft ofs otg) w).1 =
      (Cmd.undo (Cmd.UpdateDocumentCommand cid did title content file fname
        ftype tg ot oc ofp ofn oft ofs otg) w').1 ∧
    (Cmd.undo (Cmd.UpdateDocumentCommand cid did title content file fname ftype
        tg ot oc ofp ofn oft ofs otg) w).2.strip =
      (Cmd.undo (Cmd.UpdateDocumentCommand cid did title content file fname
        ftype tg ot oc ofp ofn oft ofs otg) w').2.strip := by
  have hget := stripEq_contexts hs cid
  cases hc : assocGet w.active_contexts cid with
  | none =>
      cases hc2 : assocGet w'.active_contexts cid with
      | none =>
          refine ⟨?_, ?_⟩ <;>
            simp [Cmd.undo, World.get_context, hc, hc2, hs]
      | some x => rw [hc, hc2] at hget; simp at hget
  | some ctx =>
      cases hc2 : assocGet w'.active_contexts cid with
      | none => rw [hc, hc2] at hget; simp at hget
      | some ctx' =>
          have hctx : ctx.strip = ctx'.strip := by
            rw [hc, hc2] at hget
            simpa using hget
          have hdget := ctxStripEq_documents hctx did
          cases hd : assocGet ctx.documents did with
          | none =>
              cases hd2 : assocGet ctx'.documents did with
              | none =>
                  refine ⟨?_, ?_⟩ <;>
                    simp [Cmd.undo, World.get_context,
                          DialogueContext.get_document, hc, hc2, hd, hd2, hs]
              | some x => rw [hd, hd2] at hdget; simp at hdget
          | some d =>
              cases hd2 : assocGet ctx'.documents did with
              | none => rw [hd, hd2] at hdget; simp at hdget
              | some d' =>
                  have hdoc : d.strip = d'.strip := by
                    rw [hd, hd2] at hdget
                    simpa using hdget
                  obtain ⟨hn1, hn2⟩ := update_undo_normal cid did title content
                    file fname ftype tg ot oc ofp ofn oft ofs otg w ctx d hc hd
                  obtain ⟨hn1', hn2'⟩ := update_undo_normal cid did title content
                    file fname ftype tg ot oc ofp ofn oft ofs otg w' ctx' d' hc2 hd2
                  refine ⟨by rw [hn1, hn1'], ?_⟩
                  rw [hn2, hn2', hdoc, hctx, hs]

theorem clear_sr_strip (t : Time) (ctx : DialogueContext) (q : Str) :
    (DialogueContext.clear_search_results t ctx (some q)).strip =
      (if (assocGet ctx.active_search_results q).isSome then
        { ctx.strip with
            active_search_results := assocDel ctx.active_search_results q }
       else ctx.strip) := by
  unfold DialogueContext.clear_search_results
  by_cases h : (assocGet ctx.active_search_results q).isSome = true
  · simp [h, strip_ctx_results_tl]
  · simp [h, strip_ctx_la]

theorem undo_stripEq_search (cid : Uuid) (query : Str)
    (prov : Option SearchProvider) (mr : Nat) (fl : Option Filters)
    (prev : Option (List SearchResult)) (w w' : World)
    (hs : w.strip = w'.strip) :
    (Cmd.undo (Cmd.SearchDocumentsCommand cid query prov mr fl prev) w).1 =
      (Cmd.undo (Cmd.SearchDocumentsCommand cid query prov mr fl prev) w').1 ∧
    (Cmd.undo (Cmd.SearchDocumentsCommand cid query prov mr fl prev) w).2.strip =
      (Cmd.undo (Cmd.SearchDocumentsCommand cid query prov mr fl prev) w').2.strip := by
  have hget := stripEq_contexts hs cid
  cases hc : assocGet w.active_contexts cid with
  | none =>
      cases hc2 : assocGet w'.active_contexts cid with
      | none =>
          refine ⟨?_, ?_⟩ <;>
            simp [Cmd.undo, World.get_context, hc, hc2, hs]
      | some x => rw [hc, hc2] at hget; simp at hget
  | some ctx =>
      cases hc2 : assocGet w'.active_contexts cid with
      | none => rw [hc, hc2] at hget; simp at hget
      | some ctx' =>
          have hctx : ctx.strip = ctx'.strip := by
            rw [hc, hc2] at hget
            simpa using hget
          have hres : ctx.active_search_results = ctx'.active_search_results :=
            ctxStripEq_results hctx
          cases prev with
          | some l =>
              constructor
              · simp [Cmd.undo, World.get_context, hc, hc2]
              · simp only [Cmd.undo, World.get_context, hc, hc2]
                apply put_context_stripEq hs
                conv_lhs => rw [strip_ctx_results]
                conv_rhs => rw [strip_ctx_results]
                rw [hres, hctx]
          | none =>
              constructor
              · simp [Cmd.undo, World.get_context, hc, hc2]
              · simp only [Cmd.undo, World.get_context, hc, hc2]
                apply put_context_stripEq (by rw [strip_tick, strip_tick, hs])
                rw [clear_sr_strip, clear_sr_strip, hres, hctx]

theorem undo_stripEq (c : Cmd) (w w' : World) (hs : w.strip = w'.strip) :
    (Cmd.undo c w).1 = (Cmd.undo c w').1 ∧
    (Cmd.undo c w).2.strip = (Cmd.undo c w').2.strip := by
  cases c with
  | AddDocumentCommand cid d => exact undo_stripEq_addDocument cid d w w' hs
  | CreateDocumentCommand cid t co md f fn ft tg docF =>
      exact undo_stripEq_createDocument cid t co md f fn ft tg docF w w' hs
  | UpdateDocumentCommand cid did ti co f fn ft tg ot oc ofp ofn oft ofs otg =>
      exact undo_stripEq_update cid did ti co f fn ft tg ot oc ofp ofn oft ofs otg w w' hs
  | AddAnnotationCommand cid did ty tx pos uid col cits ann =>
      exact undo_stripEq_addAnnot cid did ty tx pos uid col cits ann w w' hs
  | RemoveAnnotationCommand cid did aid ann =>
      exact undo_stripEq_removeAnnot cid did aid ann w w' hs
  | AddCitationCommand cid did tx src page sec url annId cit =>
      exact undo_stripEq_addCitation cid did tx src page sec url annId cit w w' hs
  | AddTagCommand cid did tag => exact undo_stripEq_addTag cid did tag w w' hs
  | RemoveTagCommand cid did tag was => exact undo_stripEq_removeTag cid did tag was w w' hs
  | SearchDocumentsCommand cid q prov mr fl prev =>
      exact undo_stripEq_search cid q prov mr fl prev w w' hs

/-! ### Exact round trips under the side conditions -/

theorem strip_ctx_docs (ctx : DialogueContext) (X : List (Uuid × Document)) :
    DialogueContext.strip { ctx with documents := X } =
      { ctx.strip with
          documents := X.map (fun p => (p.1, Document.strip p.2)) } := rfl

theorem strip_ctx_docs_la (ctx : DialogueContext) (X : List (Uuid × Document))
    (t : Time) :
    DialogueContext.strip { ctx with documents := X, last_activity := t } =
      { ctx.strip with
          documents := X.map (fun p => (p.1, Document.strip p.2)) } := rfl

/-- Storing a context that strips like the original back over a world that
strips like a single overwrite of that slot restores the stripped world. -/
theorem put_context_restore (w w2 : World) (cid : Uuid)
    (ctx cmid ctxfin : DialogueContext)
    (hc : World.get_context w cid = some ctx)
    (hw2 : w2.strip = (World.put_context w cid cmid).strip)
    (hfin : ctxfin.strip = ctx.strip) :
    (World.put_context w2 cid ctxfin).strip = w.strip := by
  rw [strip_put_context, hw2, strip_put_context, hfin]
  have hc' : assocGet w.active_contexts cid = some ctx := hc
  have hg : assocGet (w.active_contexts.map
      (fun p => (p.1, DialogueContext.strip p.2))) cid = some ctx.strip := by
    rw [assocGet_map, hc']
    rfl
  show { w.strip with active_contexts := assocSet (assocSet (w.active_contexts.map (fun p => (p.1, DialogueContext.strip p.2))) cid cmid.strip) cid ctx.strip } = w.strip
  rw [assocSet_assocSet, assocSet_self _ _ _ hg]
  rfl

/-- Storing a document that strips like the original back into the slot the
execute path overwrote restores the stripped world. -/
theorem putDoc_restore (w w2 : World) (cid did : Uuid) (ctx : DialogueContext)
    (d dmid dfin : Document)
    (hc : World.get_context w cid = some ctx)
    (hd : DialogueContext.get_document ctx did = some d)
    (hw2 : w2.strip = (World.put_context w cid
        { ctx with documents := assocSet ctx.documents did dmid }).strip)
    (hfin : dfin.strip = d.strip) :
    (putDoc w2 cid { ctx with documents := assocSet ctx.documents did dmid }
        did dfin).strip = w.strip := by
  refine put_context_restore w w2 cid ctx
      { ctx with documents := assocSet ctx.documents did dmid } _ hc hw2 ?_
  show DialogueContext.strip
      { ctx with documents := assocSet (assocSet ctx.documents did dmid) did dfin }
      = ctx.strip
  rw [assocSet_assocSet, strip_ctx_docs, assocSet_map, hfin]
  have hd' : assocGet ctx.documents did = some d := hd
  have hg : assocGet (ctx.documents.map (fun p => (p.1, Document.strip p.2))) did
      = some d.strip := by
    rw [assocGet_map, hd']
    rfl
  show ({ ctx.strip with documents := assocSet (ctx.documents.map (fun p => (p.1, Document.strip p.2))) did d.strip } : DialogueContext) = ctx.strip
  rw [assocSet_self _ _ _ hg]
  rfl

/-- The world an undo's final `putDoc` runs in strips like the execute-time
overwrite of the document slot. -/
theorem putDoc_tick_strip (w wX : World) (cid did : Uuid) (ctx : DialogueContext)
    (dmid : Document) (hX : wX.strip = w.strip) :
    ((putDoc wX cid ctx did dmid).tick.2).strip =
      (World.put_context w cid
        { ctx with documents := assocSet ctx.documents did dmid }).strip := by
  rw [strip_tick]
  show (World.put_context wX cid
      { ctx with documents := assocSet ctx.documents did dmid }).strip = _
  exact put_context_stripEq hX cid rfl

/-- A successful file save only touches the filesystem. -/
theorem savedFile_ok_strip (w : World) (file : FileArg) (fp : Str)
    (res : Option Nat × World) (h : savedFile w file fp = .ok res) :
    res.2.strip = w.strip := by
  cases file with
  | noArg =>
      simp only [savedFile, Except.ok.injEq] at h
      rw [← h]
  | other =>
      simp only [savedFile, Except.ok.injEq] at h
      rw [← h]
  | payload c =>
      simp only [savedFile] at h
      by_cases hw : w.writeFail = true
      · rw [if_pos hw] at h
        exact absurd h (by simp)
      · rw [if_neg hw] at h
        simp only [Except.ok.injEq] at h
        rw [← h]
        exact strip_fs w _
  | pathStr p =>
      simp only [savedFile] at h
      cases hg : assocGet w.fs p with
      | none =>
          simp only [hg, Except.ok.injEq] at h
          rw [← h]
      | some c =>
          simp only [hg] at h
          by_cases hw : w.writeFail = true
          · rw [if_pos hw] at h
            exact absurd h (by simp)
          · rw [if_neg hw] at h
            simp only [Except.ok.injEq] at h
            rw [← h]
            exact strip_fs w _

/-- A successful `create_document` yields the freshly drawn id and a world
that strips like the input. -/
theorem create_document_ok (w : World) (title content : Str)
    (md : Option (List (Str × Str))) (file : FileArg)
    (fname ftype : Option Str) (tg : Option (Finset Str))
    (doc : Document) (w1 : World)
    (h : DocumentService.create_document w title content md file fname ftype tg
        = .ok (doc, w1)) :
    doc.id = w.uuidCtr ∧ w1.strip = w.strip := by
  by_cases hb : (file.truthy && optStrTruthy fname) = true
  · simp only [DocumentService.create_document, World.freshUuid, World.tick,
               hb, if_true] at h
    split at h
    · exact absurd h (by simp)
    · rename_i fsz w2 hsv
      simp only [Except.ok.injEq, Prod.mk.injEq] at h
      obtain ⟨hdoc, hw1⟩ := h
      subst hw1
      refine ⟨?_, ?_⟩
      · rw [← hdoc]
      · exact (savedFile_ok_strip _ file _ _ hsv).trans rfl
  · simp only [DocumentService.create_document, World.freshUuid, World.tick,
               hb, Bool.false_eq_true, if_false, Except.ok.injEq,
               Prod.mk.injEq] at h
    obtain ⟨hdoc, hw1⟩ := h
    subst hw1
    exact ⟨by rw [← hdoc], rfl⟩

theorem dropLast_append_getLast {α : Type} (l : List α) (a : α)
    (h : l.getLast? = some a) : l.dropLast ++ [a] = l := by
  induction l with
  | nil => simp at h
  | cons x xs ih =>
      cases xs with
      | nil =>
          simp only [List.getLast?_singleton, Option.some.injEq] at h
          subst h
          rfl
      | cons y ys =>
          rw [List.getLast?_cons_cons] at h
          have h2 := ih h
          show x :: ((y :: ys).dropLast ++ [a]) = x :: (y :: ys)
          rw [h2]

/-- When only the appended last element matches, `find?` returns it. -/
theorem find_append_last (l : List Annot) (a : Annot) (aid : Uuid)
    (hall : ∀ x ∈ l, x.id ≠ aid) (ha : a.id = aid) :
    (l ++ [a]).find? (fun x => x.id == aid) = some a := by
  induction l with
  | nil => simp [List.find?, ha]
  | cons x xs ih =>
      have hx : (x.id == aid) = false :=
        beq_eq_false_iff_ne.mpr (hall x (List.mem_cons_self x xs))
      simp only [List.cons_append, List.find?_cons, hx]
      exact ih (fun y hy => hall y (List.mem_cons_of_mem x hy))

/-- Writing back the snapshotted title/content/tags undoes `applyUpdates`. -/
theorem applyUpdates_restore (d : Document) (title content : Option Str)
    (tg : Option (Finset Str)) :
    ({ applyUpdates d title content tg with
        title := d.title, content := d.content, tags := d.tags,
        updated_at := 0 } : Document) = d.strip := by
  cases title <;> cases content <;> cases tg <;> rfl

/-- Writing back the snapshotted file fields as well undoes the file path of
`update_document`. -/
theorem applyUpdates_restore_file (d : Document) (title content : Option Str)
    (tg : Option (Finset Str)) :
    ({ applyUpdates d title content tg with
        file_path := d.file_path, file_name := d.file_name,
        file_type := d.file_type, file_size := d.file_size,
        title := d.title, content := d.content, tags := d.tags,
        updated_at := 0 } : Document) = d.strip := by
  cases title <;> cases content <;> cases tg <;> rfl

theorem get_append_cons {α : Type} (l₁ : List α) (a : α) (l₂ : List α) :
    (l₁ ++ a :: l₂).get? l₁.length = some a := by
  induction l₁ with
  | nil => rfl
  | cons x xs ih => simpa using ih

/-- Round trip of `AddTagCommand` when the tag is new. -/
theorem rt_addTag (cid did : Uuid) (tag : Str) (w : World)
    (ctx : DialogueContext) (d : Document)
    (hc : World.get_context w cid = some ctx)
    (hd : DialogueContext.get_document ctx did = some d)
    (htag : tag ∉ d.tags) :
    (Cmd.undo (Cmd.AddTagCommand cid did tag)
        (putDoc w.tick.2 cid ctx did (Document.add_tag w.tick.1 d tag))).1 = true ∧
    (Cmd.undo (Cmd.AddTagCommand cid did tag)
        (putDoc w.tick.2 cid ctx did (Document.add_tag w.tick.1 d tag))).2.strip
      = w.strip := by
  have hg1 : World.get_context
      (putDoc w.tick.2 cid ctx did (Document.add_tag w.tick.1 d tag)) cid =
      some { ctx with documents := assocSet ctx.documents did (Document.add_tag w.tick.1 d tag) } :=
    assocGet_assocSet_self _ _ _
  have hg2 : DialogueContext.get_document
      { ctx with documents := assocSet ctx.documents did (Document.add_tag w.tick.1 d tag) } did =
      some (Document.add_tag w.tick.1 d tag) :=
    assocGet_assocSet_self _ _ _
  have htag' : tag ∉ d.strip.tags := htag
  have hfin : ∀ t' : Time,
      (Document.remove_tag t' (Document.add_tag w.tick.1 d tag) tag).2.strip
        = d.strip := by
    intro t'
    rw [(remove_tag_strip t' (Document.add_tag w.tick.1 d tag) tag).2,
        add_tag_strip]
    rw [if_pos (Finset.mem_insert_self tag d.strip.tags)]
    show ({ d.strip with tags := (insert tag d.strip.tags).erase tag } : Document)
        = d.strip
    rw [Finset.erase_insert htag']
  constructor
  · simp only [Cmd.undo, hg1, hg2]
    rw [(remove_tag_strip _ _ _).1, add_tag_strip]
    simp
  · simp only [Cmd.undo, hg1, hg2]
    exact putDoc_restore w _ cid did ctx d (Document.add_tag w.tick.1 d tag) _
      hc hd (putDoc_tick_strip w w.tick.2 cid did ctx _ (strip_tick w)) (hfin _)

/-- Round trip of `RemoveTagCommand` when the tag was present. -/
theorem rt_removeTag (cid did : Uuid) (tag : Str) (w : World)
    (ctx : DialogueContext) (d : Document)
    (hc : World.get_context w cid = some ctx)
    (hd : DialogueContext.get_document ctx did = some d)
    (htag : tag ∈ d.tags) :
    (Cmd.undo (Cmd.RemoveTagCommand cid did tag true)
        (putDoc w.tick.2 cid ctx did (Document.remove_tag w.tick.1 d tag).2)).1
      = true ∧
    (Cmd.undo (Cmd.RemoveTagCommand cid did tag true)
        (putDoc w.tick.2 cid ctx did (Document.remove_tag w.tick.1 d tag).2)).2.strip
      = w.strip := by
  have hg1 : World.get_context
      (putDoc w.tick.2 cid ctx did (Document.remove_tag w.tick.1 d tag).2) cid =
      some { ctx with documents := assocSet ctx.documents did (Document.remove_tag w.tick.1 d tag).2 } :=
    assocGet_assocSet_self _ _ _
  have hg2 : DialogueContext.get_document
      { ctx with documents := assocSet ctx.documents did (Document.remove_tag w.tick.1 d tag).2 } did =
      some (Document.remove_tag w.tick.1 d tag).2 :=
    assocGet_assocSet_self _ _ _
  have htag' : tag ∈ d.strip.tags := htag
  have hfin : ∀ t' : Time,
      (Document.add_tag t' (Document.remove_tag w.tick.1 d tag).2 tag).strip
        = d.strip := by
    intro t'
    rw [add_tag_strip, (remove_tag_strip w.tick.1 d tag).2, if_pos htag']
    show ({ d.strip with tags := insert tag (d.strip.tags.erase tag) } : Document)
        = d.strip
    rw [Finset.insert_erase htag']
  constructor
  · simp only [Cmd.undo, hg1, hg2, if_true]
  · simp only [Cmd.undo, hg1, hg2, if_true]
    exact putDoc_restore w _ cid did ctx d (Document.remove_tag w.tick.1 d tag).2 _
      hc hd (putDoc_tick_strip w w.tick.2 cid did ctx _ (strip_tick w)) (hfin _)

/-- Round trip of `AddAnnotationCommand` when the fresh annot id is new to
the document. -/
theorem rt_addAnnot (cid did : Uuid) (ty : AnnotType) (tx : Str)
    (pos : List (Str × PosVal)) (uid : Option Uuid) (col : Option Str)
    (cits : Option (List Citation)) (w wA : World)
    (ctx : DialogueContext) (d : Document) (a : Annot)
    (hc : World.get_context w cid = some ctx)
    (hd : DialogueContext.get_document ctx did = some d)
    (hwA : wA.strip = w.strip)
    (hfresh : ∀ x ∈ d.annotations, x.id ≠ a.id) :
    (Cmd.undo (Cmd.AddAnnotationCommand cid did ty tx pos uid col cits (some a))
        (putDoc wA.tick.2 cid ctx did (Document.add_annot wA.tick.1 d a))).1 = true ∧
    (Cmd.undo (Cmd.AddAnnotationCommand cid did ty tx pos uid col cits (some a))
        (putDoc wA.tick.2 cid ctx did (Document.add_annot wA.tick.1 d a))).2.strip
      = w.strip := by
  have hg1 : World.get_context
      (putDoc wA.tick.2 cid ctx did (Document.add_annot wA.tick.1 d a)) cid =
      some { ctx with documents := assocSet ctx.documents did (Document.add_annot wA.tick.1 d a) } :=
    assocGet_assocSet_self _ _ _
  have hg2 : DialogueContext.get_document
      { ctx with documents := assocSet ctx.documents did (Document.add_annot wA.tick.1 d a) } did =
      some (Document.add_annot wA.tick.1 d a) :=
    assocGet_assocSet_self _ _ _
  have hrm : removeFirstAnnot (d.annotations ++ [a]) a.id = some d.annotations :=
    removeFirstAnnot_append d.annotations a a.id rfl hfresh
  have hfin : ∀ t' : Time,
      (Document.remove_annot t' (Document.add_annot wA.tick.1 d a) a.id).2.strip
        = d.strip := by
    intro t'
    rw [(remove_annot_strip t' (Document.add_annot wA.tick.1 d a) a.id).2]
    have hrm' : removeFirstAnnot
        (Document.add_annot wA.tick.1 d a).strip.annotations a.id =
        some d.annotations := hrm
    simp only [hrm']
    rw [add_annot_strip]
    show ({ d.strip with annotations := d.annotations } : Document) = d.strip
    rfl
  constructor
  · simp only [Cmd.undo, hg1, hg2]
    rw [(remove_annot_strip _ _ _).1]
    show (removeFirstAnnot (d.annotations ++ [a]) a.id).isSome = true
    rw [hrm]
    rfl
  · simp only [Cmd.undo, hg1, hg2]
    exact putDoc_restore w _ cid did ctx d (Document.add_annot wA.tick.1 d a) _
      hc hd (putDoc_tick_strip w wA.tick.2 cid did ctx _ ((strip_tick wA).trans hwA))
      (hfin _)

/-- Round trip of `RemoveAnnotationCommand` when the removed annot was the
last one and no earlier annot shares the id. -/
theorem rt_removeAnnot (cid did aid : Uuid) (w : World)
    (ctx : DialogueContext) (d : Document) (a : Annot)
    (hc : World.get_context w cid = some ctx)
    (hd : DialogueContext.get_document ctx did = some d)
    (hlast : d.annotations.getLast? = some a)
    (haid : a.id = aid)
    (hall : ∀ x ∈ d.annotations.dropLast, x.id ≠ aid) :
    (Cmd.undo (Cmd.RemoveAnnotationCommand cid did aid (some a))
        (putDoc w.tick.2 cid ctx did (Document.remove_annot w.tick.1 d aid).2)).1
      = true ∧
    (Cmd.undo (Cmd.RemoveAnnotationCommand cid did aid (some a))
        (putDoc w.tick.2 cid ctx did (Document.remove_annot w.tick.1 d aid).2)).2.strip
      = w.strip := by
  have hdec : d.annotations.dropLast ++ [a] = d.annotations :=
    dropLast_append_getLast d.annotations a hlast
  have hrm : removeFirstAnnot (d.annotations.dropLast ++ [a]) aid =
      some d.annotations.dropLast :=
    removeFirstAnnot_append _ a aid haid hall
  rw [hdec] at hrm
  have hdm : Document.remove_annot w.tick.1 d aid =
      (true, { d with annotations := d.annotations.dropLast, updated_at := w.tick.1 }) := by
    simp only [Document.remove_annot, hrm]
  simp only [hdm]
  have hg1 : World.get_context
      (putDoc w.tick.2 cid ctx did { d with annotations := d.annotations.dropLast, updated_at := w.tick.1 }) cid =
      some { ctx with documents := assocSet ctx.documents did { d with annotations := d.annotations.dropLast, updated_at := w.tick.1 } } :=
    assocGet_assocSet_self _ _ _
  have hg2 : DialogueContext.get_document
      { ctx with documents := assocSet ctx.documents did { d with annotations := d.annotations.dropLast, updated_at := w.tick.1 } } did =
      some ({ d with annotations := d.annotations.dropLast, updated_at := w.tick.1 } : Document) :=
    assocGet_assocSet_self _ _ _
  have hfin : ∀ t' : Time,
      (Document.add_annot t' { d with annotations := d.annotations.dropLast, updated_at := w.tick.1 } a).strip = d.strip := by
    intro t'
    rw [add_annot_strip]
    show ({ d.strip with annotations := d.annotations.dropLast ++ [a] } : Document)
        = d.strip
    rw [hdec]
    rfl
  constructor
  · simp only [Cmd.undo, hg1, hg2]
  · simp only [Cmd.undo, hg1, hg2]
    exact putDoc_restore w _ cid did ctx d
      { d with annotations := d.annotations.dropLast, updated_at := w.tick.1 } _
      hc hd (putDoc_tick_strip w w.tick.2 cid did ctx _ (strip_tick w)) (hfin _)

/-- Round trip of `AddCitationCommand` with no annotation target, when the
document holds no citation with the new content-hash id. -/
theorem rt_addCitNone (cid did : Uuid) (tx src : Str) (page : Option Int)
    (sec url : Option Str) (w wC : World)
    (ctx : DialogueContext) (d : Document) (cit : Citation)
    (hc : World.get_context w cid = some ctx)
    (hd : DialogueContext.get_document ctx did = some d)
    (hwC : wC.strip = w.strip)
    (hfresh : ∀ x ∈ d.citations, x.id ≠ cit.id) :
    (Cmd.undo (Cmd.AddCitationCommand cid did tx src page sec url none (some cit))
        (putDoc wC.tick.2 cid ctx did (Document.add_citation wC.tick.1 d cit))).1
      = true ∧
    (Cmd.undo (Cmd.AddCitationCommand cid did tx src page sec url none (some cit))
        (putDoc wC.tick.2 cid ctx did (Document.add_citation wC.tick.1 d cit))).2.strip
      = w.strip := by
  have hg1 : World.get_context
      (putDoc wC.tick.2 cid ctx did (Document.add_citation wC.tick.1 d cit)) cid =
      some { ctx with documents := assocSet ctx.documents did (Document.add_citation wC.tick.1 d cit) } :=
    assocGet_assocSet_self _ _ _
  have hg2 : DialogueContext.get_document
      { ctx with documents := assocSet ctx.documents did (Document.add_citation wC.tick.1 d cit) } did =
      some (Document.add_citation wC.tick.1 d cit) :=
    assocGet_assocSet_self _ _ _
  have hrm : removeFirstCitation (d.citations ++ [cit]) cit.id = some d.citations :=
    removeFirstCitation_append d.citations cit cit.id rfl hfresh
  have hfin : ∀ t' : Time,
      (Document.remove_citation t' (Document.add_citation wC.tick.1 d cit) cit.id).2.strip
        = d.strip := by
    intro t'
    rw [(remove_citation_strip t' (Document.add_citation wC.tick.1 d cit) cit.id).2]
    have hrm' : removeFirstCitation
        (Document.add_citation wC.tick.1 d cit).strip.citations cit.id =
        some d.citations := hrm
    simp only [hrm']
    rw [add_citation_strip]
    show ({ d.strip with citations := d.citations } : Document) = d.strip
    rfl
  constructor
  · simp only [Cmd.undo, hg1, hg2]
    rw [(remove_citation_strip _ _ _).1]
    show (removeFirstCitation (d.citations ++ [cit]) cit.id).isSome = true
    rw [hrm]
    rfl
  · simp only [Cmd.undo, hg1, hg2]
    exact putDoc_restore w _ cid did ctx d (Document.add_citation wC.tick.1 d cit) _
      hc hd (putDoc_tick_strip w wC.tick.2 cid did ctx _ ((strip_tick wC).trans hwC))
      (hfin _)

/-- Round trip of `AddCitationCommand` with an annotation target, when the
first id-matching annot holds no citation with the new content-hash id. -/
theorem rt_addCitSome (cid did aid : Uuid) (tx src : Str) (page : Option Int)
    (sec url : Option Str) (w wC : World)
    (ctx : DialogueContext) (d : Document) (cit : Citation) (l : List Annot)
    (hc : World.get_context w cid = some ctx)
    (hd : DialogueContext.get_document ctx did = some d)
    (hwC : wC.strip = w.strip)
    (hfresh : annCitFresh d.annotations aid cit.id = true)
    (hadd : addCitToFirstAnnot d.annotations aid cit = some l) :
    (Cmd.undo (Cmd.AddCitationCommand cid did tx src page sec url (some aid) (some cit))
        (putDoc wC.tick.2 cid ctx did { d with annotations := l, updated_at := wC.tick.1 })).1
      = true ∧
    (Cmd.undo (Cmd.AddCitationCommand cid did tx src page sec url (some aid) (some cit))
        (putDoc wC.tick.2 cid ctx did { d with annotations := l, updated_at := wC.tick.1 })).2.strip
      = w.strip := by
  have hg1 : World.get_context
      (putDoc wC.tick.2 cid ctx did { d with annotations := l, updated_at := wC.tick.1 }) cid =
      some { ctx with documents := assocSet ctx.documents did ({ d with annotations := l, updated_at := wC.tick.1 } : Document) } :=
    assocGet_assocSet_self _ _ _
  have hg2 : DialogueContext.get_document
      { ctx with documents := assocSet ctx.documents did ({ d with annotations := l, updated_at := wC.tick.1 } : Document) } did =
      some ({ d with annotations := l, updated_at := wC.tick.1 } : Document) :=
    assocGet_assocSet_self _ _ _
  have hpop : popCitFromAnnots
      ({ d with annotations := l, updated_at := wC.tick.1 } : Document).annotations
      aid cit.id = some d.annotations :=
    popCit_addCit d.annotations aid cit hfresh l hadd
  constructor
  · simp only [Cmd.undo, hg1, hg2, hpop]
  · simp only [Cmd.undo, hg1, hg2, hpop]
    exact putDoc_restore w _ cid did ctx d
      { d with annotations := l, updated_at := wC.tick.1 } _
      hc hd (putDoc_tick_strip w wC.tick.2 cid did ctx _ ((strip_tick wC).trans hwC))
      rfl

/-- Round trip of `AddDocumentCommand` when the document id is new to the
context. -/
theorem rt_addDocument (cid : Uuid) (dd : Document) (w : World)
    (ctx : DialogueContext)
    (hc : World.get_context w cid = some ctx)
    (hfresh : assocGet ctx.documents dd.id = none) :
    (Cmd.undo (Cmd.AddDocumentCommand cid dd)
        (World.put_context w.tick.2 cid (DialogueContext.add_document w.tick.1 ctx dd))).1
      = true ∧
    (Cmd.undo (Cmd.AddDocumentCommand cid dd)
        (World.put_context w.tick.2 cid (DialogueContext.add_document w.tick.1 ctx dd))).2.strip
      = w.strip := by
  have hg1 : World.get_context
      (World.put_context w.tick.2 cid (DialogueContext.add_document w.tick.1 ctx dd)) cid =
      some (DialogueContext.add_document w.tick.1 ctx dd) :=
    assocGet_assocSet_self _ _ _
  have hrd : ∀ t' : Time,
      DialogueContext.remove_document t' (DialogueContext.add_document w.tick.1 ctx dd) dd.id =
      (true, { ctx with documents := assocDel (assocSet ctx.documents dd.id dd) dd.id, last_activity := t' }) := by
    intro t'
    simp [DialogueContext.remove_document, DialogueContext.add_document,
          assocGet_assocSet_self]
  constructor
  · simp only [Cmd.undo, hg1, hrd]
  · simp only [Cmd.undo, hg1, hrd]
    refine put_context_restore w _ cid ctx
      (DialogueContext.add_document w.tick.1 ctx dd) _ hc ?_ ?_
    · rw [strip_tick]
      exact put_context_stripEq (strip_tick w) cid rfl
    · show DialogueContext.strip { ctx with documents := assocDel (assocSet ctx.documents dd.id dd) dd.id, last_activity := _ } = ctx.strip
      rw [strip_ctx_docs_la, assocDel_assocSet_fresh _ _ _ hfresh]
      rfl

/-- Round trip of `CreateDocumentCommand` when the drawn uuid is new to the
context. -/
theorem rt_createDocument (cid : Uuid) (title content : Str)
    (md : Option (List (Str × Str))) (file : FileArg) (fname ftype : Option Str)
    (tg : Option (Finset Str)) (w w1 : World) (ctx : DialogueContext)
    (doc : Document)
    (hc : World.get_context w cid = some ctx)
    (hCr : DocumentService.create_document w title content md file fname ftype tg
        = .ok (doc, w1))
    (hfresh : assocGet ctx.documents w.uuidCtr = none) :
    (Cmd.undo (Cmd.CreateDocumentCommand cid title content md file fname ftype tg (some doc))
        (World.put_context w1.tick.2 cid (DialogueContext.add_document w1.tick.1 ctx doc))).1
      = true ∧
    (Cmd.undo (Cmd.CreateDocumentCommand cid title content md file fname ftype tg (some doc))
        (World.put_context w1.tick.2 cid (DialogueContext.add_document w1.tick.1 ctx doc))).2.strip
      = w.strip := by
  obtain ⟨hid, hw1⟩ :=
    create_document_ok w title content md file fname ftype tg doc w1 hCr
  have hfresh' : assocGet ctx.documents doc.id = none := by
    rw [hid]
    exact hfresh
  have hg1 : World.get_context
      (World.put_context w1.tick.2 cid (DialogueContext.add_document w1.tick.1 ctx doc)) cid =
      some (DialogueContext.add_document w1.tick.1 ctx doc) :=
    assocGet_assocSet_self _ _ _
  have hg2 : DialogueContext.get_document
      (DialogueContext.add_document w1.tick.1 ctx doc) doc.id = some doc :=
    assocGet_assocSet_self _ _ _
  have hrd : ∀ t' : Time,
      DialogueContext.remove_document t' (DialogueContext.add_document w1.tick.1 ctx doc) doc.id =
      (true, { ctx with documents := assocDel (assocSet ctx.documents doc.id doc) doc.id, last_activity := t' }) := by
    intro t'
    simp [DialogueContext.remove_document, DialogueContext.add_document,
          assocGet_assocSet_self]
  constructor
  · simp only [Cmd.undo, hg1, hg2, Option.getD_some, hrd]
  · simp only [Cmd.undo, hg1, hg2, Option.getD_some, hrd]
    refine put_context_restore w _ cid ctx
      (DialogueContext.add_document w1.tick.1 ctx doc) _ hc ?_ ?_
    · rw [strip_tick, strip_removeIfExists]
      exact put_context_stripEq ((strip_tick w1).trans hw1) cid rfl
    · show DialogueContext.strip { ctx with documents := assocDel (assocSet ctx.documents doc.id doc) doc.id, last_activity := _ } = ctx.strip
      rw [strip_ctx_docs_la, assocDel_assocSet_fresh _ _ _ hfresh']
      rfl

/-- Round trip of `SearchDocumentsCommand` when the query had stored
results (the snapshot holds them). -/
theorem rt_searchSome (cid : Uuid) (query : Str) (prov : Option SearchProvider)
    (mr : Nat) (fl : Option Filters) (w : World) (ctx : DialogueContext)
    (l res : List SearchResult)
    (hc : World.get_context w cid = some ctx)
    (hq : assocGet ctx.active_search_results query = some l) :
    (Cmd.undo (Cmd.SearchDocumentsCommand cid query prov mr fl (some l))
        (World.put_context w.tick.2 cid (DialogueContext.search_documents w.tick.1 ctx query res))).1
      = true ∧
    (Cmd.undo (Cmd.SearchDocumentsCommand cid query prov mr fl (some l))
        (World.put_context w.tick.2 cid (DialogueContext.search_documents w.tick.1 ctx query res))).2.strip
      = w.strip := by
  have hg1 : World.get_context
      (World.put_context w.tick.2 cid (DialogueContext.search_documents w.tick.1 ctx query res)) cid =
      some (DialogueContext.search_documents w.tick.1 ctx query res) :=
    assocGet_assocSet_self _ _ _
  constructor
  · simp only [Cmd.undo, hg1]
  · simp only [Cmd.undo, hg1]
    refine put_context_restore w _ cid ctx
      (DialogueContext.search_documents w.tick.1 ctx query res) _ hc ?_ ?_
    · exact put_context_stripEq (strip_tick w) cid rfl
    · show DialogueContext.strip { ctx with active_search_results := assocSet (assocSet ctx.active_search_results query res) query l, last_activity := w.tick.1 } = ctx.strip
      rw [strip_ctx_results_tl, assocSet_assocSet, assocSet_self _ _ _ hq]
      rfl

/-- Round trip of `SearchDocumentsCommand` when the query had no stored
results and the snapshot kept its initial `None`. -/
theorem rt_searchNone (cid : Uuid) (query : Str) (prov : Option SearchProvider)
    (mr : Nat) (fl : Option Filters) (w : World) (ctx : DialogueContext)
    (res : List SearchResult)
    (hc : World.get_context w cid = some ctx)
    (hq : assocGet ctx.active_search_results query = none) :
    (Cmd.undo (Cmd.SearchDocumentsCommand cid query prov mr fl none)
        (World.put_context w.tick.2 cid (DialogueContext.search_documents w.tick.1 ctx query res))).1
      = true ∧
    (Cmd.undo (Cmd.SearchDocumentsCommand cid query prov mr fl none)
        (World.put_context w.tick.2 cid (DialogueContext.search_documents w.tick.1 ctx query res))).2.strip
      = w.strip := by
  have hg1 : World.get_context
      (World.put_context w.tick.2 cid (DialogueContext.search_documents w.tick.1 ctx query res)) cid =
      some (DialogueContext.search_documents w.tick.1 ctx query res) :=
    assocGet_assocSet_self _ _ _
  have hclear : ∀ t' : Time,
      DialogueContext.clear_search_results t'
        (DialogueContext.search_documents w.tick.1 ctx query res) (some query) =
      { ctx with active_search_results := assocDel (assocSet ctx.active_search_results query res) query, last_activity := t' } := by
    intro t'
    simp [DialogueContext.clear_search_results, DialogueContext.search_documents,
          assocGet_assocSet_self]
  constructor
  · simp only [Cmd.undo, hg1]
  · simp only [Cmd.undo, hg1, hclear]
    refine put_context_restore w _ cid ctx
      (DialogueContext.search_documents w.tick.1 ctx query res) _ hc ?_ ?_
    · rw [strip_tick]
      exact put_context_stripEq (strip_tick w) cid rfl
    · show DialogueContext.strip { ctx with active_search_results := assocDel (assocSet ctx.active_search_results query res) query, last_activity := _ } = ctx.strip
      rw [strip_ctx_results_tl, assocDel_assocSet_fresh _ _ _ hq]
      rfl

/-- Round trip of `UpdateDocumentCommand`: with no effective file handling
the snapshot restores title/content/tags; with a saved file the extra
guard-path restores the file fields, provided the new stored path differs
from the current one. -/
theorem rt_update (cid did : Uuid) (title content : Option Str) (file : FileArg)
    (fname ftype : Option Str) (tg : Option (Finset Str)) (w w' : World)
    (ctx : DialogueContext) (document d' : Document)
    (hc : World.get_context w cid = some ctx)
    (hd : DialogueContext.get_document ctx did = some document)
    (hfp : (file.truthy && optStrTruthy fname) = true →
        document.file_path ≠
          some (uploadPath document.id (secure_filename (fname.getD []))))
    (hU : DocumentService.update_document w document title content file fname ftype tg
        = .ok (d', w')) :
    (Cmd.undo (Cmd.UpdateDocumentCommand cid did title content file fname ftype tg
        (some document.title) (some document.content) document.file_path
        document.file_name document.file_type document.file_size (some document.tags))
        (putDoc w' cid ctx did d')).1 = true ∧
    (Cmd.undo (Cmd.UpdateDocumentCommand cid did title content file fname ftype tg
        (some document.title) (some document.content) document.file_path
        document.file_name document.file_type document.file_size (some document.tags))
        (putDoc w' cid ctx did d')).2.strip = w.strip := by
  have hg1 : World.get_context (putDoc w' cid ctx did d') cid =
      some { ctx with documents := assocSet ctx.documents did d' } :=
    assocGet_assocSet_self _ _ _
  have hg2 : DialogueContext.get_document
      { ctx with documents := assocSet ctx.documents did d' } did = some d' :=
    assocGet_assocSet_self _ _ _
  have hid := (applyUpdates_file_fields document title content tg).1
  have hpp := (applyUpdates_file_fields document title content tg).2.1
  by_cases hb : (file.truthy && optStrTruthy fname) = true
  · simp only [DocumentService.update_document, hb, if_true] at hU
    split at hU
    · exact absurd hU (by simp)
    · exact absurd hU (by simp)
    · rename_i sz w2 hsv
      simp only [Except.ok.injEq, Prod.mk.injEq] at hU
      obtain ⟨hdd, hww⟩ := hU
      subst hdd hww
      have hft : file.truthy = true := by
        cases hft0 : file.truthy
        · rw [hft0] at hb
          simp at hb
        · rfl
      have hne : document.file_path ≠
          some (uploadPath (applyUpdates document title content tg).id
            (secure_filename (fname.getD []))) := by
        rw [hid]
        exact hfp hb
      have h1 : ((some (uploadPath (applyUpdates document title content tg).id
          (secure_filename (fname.getD []))) : Option Str) == document.file_path)
          = false :=
        beq_eq_false_iff_ne.mpr (fun h => hne h.symm)
      constructor
      · simp only [Cmd.undo, hg1, hg2]
      · simp only [Cmd.undo, hg1, hg2, h1, hft, Bool.not_false, Bool.and_true,
                   if_true, Option.getD_some]
        refine putDoc_restore w _ cid did ctx document _ _ hc hd ?_ ?_
        · rw [strip_tick, strip_removeIfExists]
          show (World.put_context w2.tick.2 cid _).strip = _
          refine put_context_stripEq ?_ cid rfl
          rw [strip_tick]
          exact (savedFile_ok_strip _ file _ _ hsv).trans (strip_removeIfExists w _)
        · show ({ applyUpdates document title content tg with
              file_path := document.file_path, file_name := document.file_name,
              file_type := document.file_type, file_size := document.file_size,
              title := document.title, content := document.content,
              tags := document.tags, updated_at := 0 } : Document) = document.strip
          exact applyUpdates_restore_file document title content tg
  · have hb' : (file.truthy && optStrTruthy fname) = false := by
      cases hkk : file.truthy && optStrTruthy fname
      · rfl
      · exact absurd hkk hb
    simp only [DocumentService.update_document, hb', Bool.false_eq_true, if_false,
               Except.ok.injEq, Prod.mk.injEq] at hU
    obtain ⟨hdd, hww⟩ := hU
    subst hdd hww
    have hcond : (file.truthy &&
        !(((applyUpdates document title content tg).file_path : Option Str)
          == document.file_path)) = false := by
      rw [hpp]
      simp
    constructor
    · simp only [Cmd.undo, hg1, hg2]
    · simp only [Cmd.undo, hg1, hg2, hcond, Bool.false_eq_true, if_false,
                 Option.getD_some]
      refine putDoc_restore w _ cid did ctx document _ _ hc hd ?_ ?_
      · exact putDoc_tick_strip w w.tick.2 cid did ctx _ (strip_tick w)
      · show ({ applyUpdates document title content tg with
            title := document.title, content := document.content,
            tags := document.tags, updated_at := 0 } : Document) = document.strip
        exact applyUpdates_restore document title content tg

/-- Under the side conditions, a successful `execute()` followed by the
returned command's `undo()` reports `true` and restores the stripped
world. -/
theorem roundtrip (c : Cmd) (w w₁ : World) (c₁ : Cmd)
    (hside : sideOK c w = true)
    (hE : Cmd.execute c w = (ExecResult.ok true, w₁, c₁)) :
    (Cmd.undo c₁ w₁).1 = true ∧ (Cmd.undo c₁ w₁).2.strip = w.strip := by
  cases c with
  | AddDocumentCommand cid dd =>
      cases hc : World.get_context w cid with
      | none =>
          simp only [Cmd.execute, hc] at hE
          exact absurd hE (by simp)
      | some ctx =>
          simp only [Cmd.execute, hc, Prod.mk.injEq, true_and] at hE
          obtain ⟨hw1, hc1⟩ := hE
          subst hw1
          subst hc1
          simp only [sideOK, hc] at hside
          exact rt_addDocument cid dd w ctx hc (Option.isNone_iff_eq_none.mp hside)
  | CreateDocumentCommand cid title content md file fname ftype tg docF =>
      cases hc : World.get_context w cid with
      | none =>
          simp only [Cmd.execute, hc] at hE
          exact absurd hE (by simp)
      | some ctx =>
          simp only [Cmd.execute, hc] at hE
          split at hE
          · exact absurd hE (by simp)
          · rename_i doc w1 hCr
            simp only [Prod.mk.injEq, true_and] at hE
            obtain ⟨hw1, hc1⟩ := hE
            subst hw1
            subst hc1
            simp only [sideOK, hc] at hside
            exact rt_createDocument cid title content md file fname ftype tg w w1
              ctx doc hc hCr (Option.isNone_iff_eq_none.mp hside)
  | UpdateDocumentCommand cid did title content file fname ftype tg ot oc ofp ofn oft ofs otg =>
      cases hc : World.get_context w cid with
      | none =>
          simp only [Cmd.execute, hc] at hE
          exact absurd hE (by simp)
      | some ctx =>
          cases hd : DialogueContext.get_document ctx did with
          | none =>
              simp only [Cmd.execute, hc, hd] at hE
              exact absurd hE (by simp)
          | some document =>
              simp only [Cmd.execute, hc, hd] at hE
              split at hE
              · exact absurd hE (by simp)
              · rename_i d' w' hU
                simp only [Prod.mk.injEq, true_and] at hE
                obtain ⟨hw1, hc1⟩ := hE
                subst hw1
                subst hc1
                simp only [sideOK, hc, hd] at hside
                have hfp : (file.truthy && optStrTruthy fname) = true →
                    document.file_path ≠
                      some (uploadPath document.id (secure_filename (fname.getD []))) := by
                  intro hbb
                  rw [if_pos hbb] at hside
                  exact of_decide_eq_true hside
                exact rt_update cid did title content file fname ftype tg w w'
                  ctx document d' hc hd hfp hU
  | AddAnnotationCommand cid did ty tx pos uid col cits ann =>
      cases hc : World.get_context w cid with
      | none =>
          simp only [Cmd.execute, hc] at hE
          exact absurd hE (by simp)
      | some ctx =>
          cases hd : DialogueContext.get_document ctx did with
          | none =>
              simp only [Cmd.execute, hc, hd] at hE
              exact absurd hE (by simp)
          | some d =>
              simp only [Cmd.execute, hc, hd, Prod.mk.injEq, true_and] at hE
              obtain ⟨hw1, hc1⟩ := hE
              subst hw1
              subst hc1
              simp only [sideOK, hc, hd] at hside
              have hfresh : ∀ x ∈ d.annotations,
                  x.id ≠ (DocumentService.create_annot w did ty tx pos uid col cits).1.id :=
                fun x hx => of_decide_eq_true (List.all_eq_true.mp hside x hx)
              exact rt_addAnnot cid did ty tx pos uid col cits w
                (DocumentService.create_annot w did ty tx pos uid col cits).2
                ctx d _ hc hd rfl hfresh
  | RemoveAnnotationCommand cid did aid ann =>
      cases hc : World.get_context w cid with
      | none =>
          simp only [Cmd.execute, hc] at hE
          exact absurd hE (by simp)
      | some ctx =>
          cases hd : DialogueContext.get_document ctx did with
          | none =>
              simp only [Cmd.execute, hc, hd] at hE
              exact absurd hE (by simp)
          | some d =>
              simp only [Cmd.execute, hc, hd] at hE
              cases hf : d.annotations.find? (fun a => a.id == aid) with
              | none =>
                  simp only [hf] at hE
                  exact absurd hE (by simp)
              | some found =>
                  simp only [hf, Prod.mk.injEq, true_and] at hE
                  obtain ⟨hflag, hw1, hc1⟩ := hE
                  simp only [sideOK, hc, hd] at hside
                  cases hlast : d.annotations.getLast? with
                  | none =>
                      rw [List.getLast?_eq_none_iff.mp hlast] at hf
                      exact absurd hf (by simp)
                  | some a =>
                      simp only [hlast, Bool.and_eq_true, decide_eq_true_eq,
                                 List.all_eq_true] at hside
                      obtain ⟨haid, hall0⟩ := hside
                      have hall : ∀ x ∈ d.annotations.dropLast, x.id ≠ aid :=
                        hall0
                      have hdec : d.annotations.dropLast ++ [a] = d.annotations :=
                        dropLast_append_getLast d.annotations a hlast
                      rw [← hdec] at hf
                      rw [find_append_last d.annotations.dropLast a aid hall haid] at hf
                      have hfa : found = a := by
                        have := hf.symm
                        simpa using this
                      subst hfa
                      subst hw1
                      subst hc1
                      exact rt_removeAnnot cid did aid w ctx d found hc hd hlast haid hall
  | AddCitationCommand cid did tx src page sec url annId citF =>
      cases hc : World.get_context w cid with
      | none =>
          simp only [Cmd.execute, hc] at hE
          exact absurd hE (by simp)
      | some ctx =>
          cases hd : DialogueContext.get_document ctx did with
          | none =>
              simp only [Cmd.execute, hc, hd] at hE
              exact absurd hE (by simp)
          | some d =>
              cases annId with
              | none =>
                  simp only [Cmd.execute, hc, hd, Prod.mk.injEq, true_and] at hE
                  obtain ⟨hw1, hc1⟩ := hE
                  subst hw1
                  subst hc1
                  simp only [sideOK, hc, hd] at hside
                  have hfresh : ∀ x ∈ d.citations,
                      x.id ≠ (DocumentService.create_citation w tx src page sec url).1.id :=
                    fun x hx => of_decide_eq_true (List.all_eq_true.mp hside x hx)
                  exact rt_addCitNone cid did tx src page sec url w
                    (DocumentService.create_citation w tx src page sec url).2
                    ctx d _ hc hd rfl hfresh
              | some aid =>
                  simp only [Cmd.execute, hc, hd] at hE
                  cases hadd : addCitToFirstAnnot d.annotations aid
                      (DocumentService.create_citation w tx src page sec url).1 with
                  | none =>
                      simp only [hadd] at hE
                      exact absurd hE (by simp)
                  | some l =>
                      simp only [hadd, Prod.mk.injEq, true_and] at hE
                      obtain ⟨hw1, hc1⟩ := hE
                      subst hw1
                      subst hc1
                      simp only [sideOK, hc, hd] at hside
                      exact rt_addCitSome cid did aid tx src page sec url w
                        (DocumentService.create_citation w tx src page sec url).2
                        ctx d _ l hc hd rfl hside hadd
  | AddTagCommand cid did tag =>
      cases hc : World.get_context w cid with
      | none =>
          simp only [Cmd.execute, hc] at hE
          exact absurd hE (by simp)
      | some ctx =>
          cases hd : DialogueContext.get_document ctx did with
          | none =>
              simp only [Cmd.execute, hc, hd] at hE
              exact absurd hE (by simp)
          | some d =>
              simp only [Cmd.execute, hc, hd, Prod.mk.injEq, true_and] at hE
              obtain ⟨hw1, hc1⟩ := hE
              subst hw1
              subst hc1
              simp only [sideOK, hc, hd] at hside
              exact rt_addTag cid did tag w ctx d hc hd (of_decide_eq_true hside)
  | RemoveTagCommand cid did tag was =>
      cases hc : World.get_context w cid with
      | none =>
          simp only [Cmd.execute, hc] at hE
          exact absurd hE (by simp)
      | some ctx =>
          cases hd : DialogueContext.get_document ctx did with
          | none =>
              simp only [Cmd.execute, hc, hd] at hE
              exact absurd hE (by simp)
          | some d =>
              simp only [Cmd.execute, hc, hd, Prod.mk.injEq, true_and] at hE
              obtain ⟨hflag, hw1, hc1⟩ := hE
              have htag : tag ∈ d.tags := by
                rw [(remove_tag_strip _ _ _).1] at hflag
                have h2 : decide (tag ∈ d.strip.tags) = true := by simpa using hflag
                exact of_decide_eq_true h2
              rw [decide_eq_true htag] at hc1
              subst hw1
              subst hc1
              exact rt_removeTag cid did tag w ctx d hc hd htag
  | SearchDocumentsCommand cid query prov mr fl prevF =>
      cases hc : World.get_context w cid with
      | none =>
          simp only [Cmd.execute, hc] at hE
          exact absurd hE (by simp)
      | some ctx =>
          simp only [Cmd.execute, hc] at hE
          simp only [sideOK, hc] at hside
          cases hq : assocGet ctx.active_search_results query with
          | some l =>
              simp only [hq, Prod.mk.injEq, true_and] at hE
              obtain ⟨hw1, hc1⟩ := hE
              subst hw1
              subst hc1
              exact rt_searchSome cid query prov mr fl w ctx l _ hc hq
          | none =>
              simp only [hq] at hE
              have hprev : prevF = none := by
                rw [hq] at hside
                exact Option.isNone_iff_eq_none.mp (by simpa using hside)
              subst hprev
              simp only [Prod.mk.injEq, true_and] at hE
              obtain ⟨hw1, hc1⟩ := hE
              subst hw1
              subst hc1
              exact rt_searchNone cid query prov mr fl w ctx _ hc hq

/-! ### N successful `execute_command` calls followed by N `undo()` calls -/

/-- Apply `n` `undo()` calls to a history/world state. -/
def undoN : Nat → CommandHistory × World → CommandHistory × World
  | 0, s => s
  | n + 1, s => stepH (undoN n s) HOp.doUndo

/-- `undo()` never changes the command sequence. -/
theorem undo_keeps_history (h : CommandHistory) (w : World) :
    (CommandHistory.undo h w).2.1.history = h.history := by
  unfold CommandHistory.undo
  repeat' split
  all_goals rfl

theorem undoN_history (n : Nat) (s : CommandHistory × World) :
    (undoN n s).1.history = s.1.history := by
  induction n with
  | zero => rfl
  | succ n ih =>
      have h1 : (stepH (undoN n s) HOp.doUndo).1.history =
          (undoN n s).1.history := undo_keeps_history _ _
      exact h1.trans ih

/-- A run of commands, each satisfying its side condition in the state it
executes in, whose `execute_command` calls all return `True`. -/
inductive GoodRun :
    CommandHistory × World → List Cmd → CommandHistory × World → Prop where
  | nil (s : CommandHistory × World) : GoodRun s [] s
  | cons (s : CommandHistory × World) (c : Cmd) (cs : List Cmd)
      (s' : CommandHistory × World)
      (hside : sideOK c s.2 = true)
      (hok : (CommandHistory.execute_command s.1 s.2 c).1 = ExecResult.ok true)
      (hrest : GoodRun (stepH s (HOp.exec c)) cs s') :
      GoodRun s (c :: cs) s'

/-- Main induction: a good run of `N` commands from a tip state (cursor at
the end of the history) followed by `N` undos restores the cursor and the
stripped entity graph. -/
theorem goodRun_undoN (s : CommandHistory × World) (cs : List Cmd)
    (s' : CommandHistory × World) (h : GoodRun s cs s') :
    s.1.position = (s.1.history.length : Int) - 1 →
    s'.1.position = (s'.1.history.length : Int) - 1 ∧
    (∃ ext : List Cmd, s'.1.history = s.1.history ++ ext) ∧
    (undoN cs.length s').1.position = s.1.position ∧
    (undoN cs.length s').2.strip = s.2.strip := by
  induction h with
  | nil s0 =>
      intro hpos
      exact ⟨hpos, ⟨[], by simp⟩, rfl, rfl⟩
  | cons s0 c cs0 s1 hside hok hrest ih =>
      intro hpos
      rcases hX : Cmd.execute c s0.2 with ⟨res, w₁, c₁⟩
      cases res with
      | exn =>
          simp only [CommandHistory.execute_command, hX] at hok
          exact absurd hok (by simp)
      | ok b =>
          cases b with
          | false =>
              simp only [CommandHistory.execute_command, hX, Bool.false_eq_true,
                         if_false] at hok
              exact absurd hok (by simp)
          | true =>
              have hE : Cmd.execute c s0.2 = (ExecResult.ok true, w₁, c₁) := hX
              have hnotrunc : ¬ s0.1.position < (s0.1.history.length : Int) - 1 := by
                omega
              have hstep : stepH s0 (HOp.exec c) =
                  ({ history := s0.1.history ++ [c₁],
                     position := ((s0.1.history ++ [c₁]).length : Int) - 1 }, w₁) := by
                simp only [stepH, CommandHistory.execute_command, hX, if_true]
                rw [if_neg hnotrunc]
              have hpos1 : (stepH s0 (HOp.exec c)).1.position =
                  ((stepH s0 (HOp.exec c)).1.history.length : Int) - 1 := by
                rw [hstep]
              obtain ⟨hpos', ⟨ext, hext⟩, hup, hus⟩ := ih hpos1
              have hfull : s1.1.history = s0.1.history ++ c₁ :: ext := by
                rw [hext, hstep]
                simp
              have hlen1 : (s0.1.history ++ [c₁]).length = s0.1.history.length + 1 := by
                simp
              have hposU : (undoN cs0.length s1).1.position =
                  (s0.1.history.length : Int) := by
                rw [hup, hstep]
                show ((s0.1.history ++ [c₁]).length : Int) - 1 = _
                rw [hlen1]
                push_cast
                omega
              have hN : s1.1.history.length = s0.1.history.length + 1 + ext.length := by
                rw [hfull]
                simp
                omega
              have hpy : pyIdx (undoN cs0.length s1).1.history.length
                  (undoN cs0.length s1).1.position = some s0.1.history.length := by
                rw [hposU, undoN_history, hN]
                unfold pyIdx
                rw [if_pos (by omega), if_pos (by omega)]
                simp
              have hgets : (undoN cs0.length s1).1.history[s0.1.history.length]?
                  = some c₁ := by
                rw [undoN_history, hfull, ← List.get?_eq_getElem?]
                exact get_append_cons _ _ _
              obtain ⟨hrt1, hrt2⟩ := roundtrip c s0.2 w₁ c₁ hside hE
              have hsUw : (undoN cs0.length s1).2.strip = w₁.strip := by
                rw [hus, hstep]
              obtain ⟨hu1, hu2⟩ := undo_stripEq c₁ (undoN cs0.length s1).2 w₁ hsUw
              have hflagU : (Cmd.undo c₁ (undoN cs0.length s1).2).1 = true :=
                hu1.trans hrt1
              have hstripU : (Cmd.undo c₁ (undoN cs0.length s1).2).2.strip
                  = s0.2.strip := hu2.trans hrt2
              have hundo : CommandHistory.undo (undoN cs0.length s1).1
                  (undoN cs0.length s1).2 =
                  (ExecResult.ok true,
                   { (undoN cs0.length s1).1 with
                       position := (undoN cs0.length s1).1.position - 1 },
                   (Cmd.undo c₁ (undoN cs0.length s1).2).2) := by
                unfold CommandHistory.undo
                rw [if_pos (show (0:Int) ≤ (undoN cs0.length s1).1.position by
                  rw [hposU]
                  omega)]
                simp [hpy, hgets, hflagU]
              refine ⟨hpos', ⟨c₁ :: ext, hfull⟩, ?_, ?_⟩
              · show (stepH (undoN cs0.length s1) HOp.doUndo).1.position
                    = s0.1.position
                simp only [stepH, hundo]
                rw [hposU] at *
                omega
              · show (stepH (undoN cs0.length s1) HOp.doUndo).2.strip
                    = s0.2.strip
                simp only [stepH, hundo]
                exact hstripU

/-! ## Claim C1: N successful executes then N undos restore the graph -/

/-- A start state: empty history, cursor at `-1` (the tip of an empty
history). -/
def startState : CommandHistory × World :=
  ({ history := [], position := -1 }, sampleWorld)

/-- A tag command whose tag is new to `sampleDoc`. -/
def tagCmdQ : Cmd := Cmd.AddTagCommand 0 0 (str "q")

/-- C1 counterexample: `AddTagCommand` for a tag the document already
carries.  The `execute_command` call returns `True`, yet the single
`undo()` removes the pre-existing tag, so the entity graph (here the
document's tag set) differs from its state before the command — the
unconditional claim fails. -/
theorem command_roundtrip_counterexample :
    (CommandHistory.execute_command startState.1 startState.2 tagCmdX).1
      = ExecResult.ok true ∧
    (undoN 1 (stepH startState (HOp.exec tagCmdX))).2.strip
      ≠ startState.2.strip := by
  constructor
  · decide
  · decide

/-- C1 (amended): for every start state whose cursor sits at the end of its
history and every sequence of N commands that each satisfy their `sideOK`
side condition in the state they execute in and whose `execute_command`
calls all return `True`, the N executions followed by exactly N `undo()`
calls restore every entity field of the workspace graph — documents with
their titles, contents, file fields, tags, annotations and citations, and
each context's stored search results (`World.strip` equality; the
`updated_at`/`last_activity` timestamps, clocks and filesystem are outside
the claimed field list) — and return the history cursor to its starting
position. -/
theorem command_roundtrip_amended (s s' : CommandHistory × World)
    (cs : List Cmd) (h : GoodRun s cs s')
    (hpos : s.1.position = (s.1.history.length : Int) - 1) :
    (undoN cs.length s').2.strip = s.2.strip ∧
    (undoN cs.length s').1.position = s.1.position := by
  obtain ⟨-, -, h3, h4⟩ := goodRun_undoN s cs s' h hpos
  exact ⟨h4, h3⟩

theorem command_roundtrip_witness :
    (undoN 1 (stepH startState (HOp.exec tagCmdQ))).2.strip
      = startState.2.strip ∧
    (undoN 1 (stepH startState (HOp.exec tagCmdQ))).1.position
      = startState.1.position := by
  have hrun : GoodRun startState [tagCmdQ]
      (stepH startState (HOp.exec tagCmdQ)) :=
    GoodRun.cons _ tagCmdQ [] _ (by decide) (by decide) (GoodRun.nil _)
  exact command_roundtrip_amended startState
    (stepH startState (HOp.exec tagCmdQ)) [tagCmdQ] hrun (by decide)

end VibeDialog
